import Mathlib

/-!
Shallow embedding of the FAT12 disk engine in `AtariDiskEngine.cpp`
(class `Atari::AtariDiskEngine`), together with proofs about its
geometry detection, FAT12 chain handling, file read/inject/delete
operations, checksum validation and disk statistics.

Conventions used throughout the embedding:
* the disk image is a total byte function together with a size; byte
  stores normalize with `% 256`, matching `uint8_t` assignment;
* C bitwise operations on byte values are translated to their exact
  arithmetic counterparts (`x & 0xFF` is `x % 256`, `x >> 4` is
  `x / 16`, `x & 0xF0` is `x / 16 % 16 * 16`, `x & 0x0F` is `x % 16`,
  and `a | b` on operands with disjoint bit ranges is `a + b`);
* unbounded C `while` loops are given explicit fuel that is provably
  never exhausted on the loops own termination argument.
-/

namespace Atari

/-- A disk image: `m_image` of `AtariDiskEngine`, a byte vector modelled
as its length plus a total byte function (bytes are `uint8_t`, hence
stores normalize modulo 256). -/
structure Image where
  size : Nat
  byte : Nat → Nat

/-- Single byte store `m_image[off] = v` (`uint8_t` assignment truncates
modulo 256). -/
def Image.writeByte (img : Image) (off v : Nat) : Image :=
  { img with byte := fun o => if o = off then v % 256 else img.byte o }

/-- `readLE16(p)` from `AtariDiskEngine.h`: `p[0] | (p[1] << 8)`. -/
def Image.readLE16 (img : Image) (off : Nat) : Nat :=
  img.byte off + 256 * img.byte (off + 1)

/-- `readBE16(p)` from `AtariDiskEngine.h`: `(p[0] << 8) | p[1]`. -/
def Image.readBE16 (img : Image) (off : Nat) : Nat :=
  256 * img.byte off + img.byte (off + 1)

/-- `AtariDiskEngine::writeLE16`: `ptr[0] = val & 0xFF; ptr[1] = (val >> 8) & 0xFF`. -/
def writeLE16 (img : Image) (off v : Nat) : Image :=
  (img.writeByte off (v % 256)).writeByte (off + 1) (v / 256 % 256)

/-- `AtariDiskEngine::writeLE32`: four byte stores of the little-endian limbs. -/
def writeLE32 (img : Image) (off v : Nat) : Image :=
  (((img.writeByte off (v % 256)).writeByte (off + 1) (v / 256 % 256)).writeByte
      (off + 2) (v / 65536 % 256)).writeByte (off + 3) (v / 16777216 % 256)

/-- `std::memcpy(&m_image[dst], &m_image[src], len)` for the non-overlapping
regions used by the engine (FAT mirror sync): the destination window reads
from the source window of the old image. -/
def copyRegion (img : Image) (dst src len : Nat) : Image :=
  { img with byte := fun o => if dst ≤ o ∧ o < dst + len then img.byte (src + (o - dst)) else img.byte o }

/-- `std::memcpy(&m_image[off], bs.data(), bs.length)` from a host buffer
(used for the injected file name, extension and data bytes). -/
def writeBytesList (img : Image) (off : Nat) (bs : List Nat) : Image :=
  { img with byte := fun o => if off ≤ o ∧ o < off + bs.length then bs.getD (o - off) 0 % 256 else img.byte o }

/-- The `n` bytes starting at `off` (used to model `memcmp`/`memcpy` reads). -/
def bytesAt (img : Image) (off n : Nat) : List Nat :=
  (List.range n).map (fun j => img.byte (off + j))

/-- `AtariDiskEngine::GeometryMode`. -/
inductive GeometryMode
  | Unknown
  | BPB
  | HatariGuess
deriving DecidableEq

/-- The engine state: image buffer plus the fields of `AtariDiskEngine`
that the core operations consult (`m_internalOffset`, mutable
`m_geoMode`, and the manual-override fields, which default as in the
header). -/
structure Engine where
  image : Image
  internalOffset : Nat := 0
  geoMode : GeometryMode := GeometryMode.Unknown
  manualRootSector : Nat := 11
  useManualOverride : Bool := false

/-- `Atari::DirEntry` (32 raw bytes, grouped exactly as the struct fields). -/
structure DirEntry where
  name : List Nat
  ext : List Nat
  attr : Nat
  reserved : List Nat
  time : List Nat
  date : List Nat
  startCluster : List Nat
  fileSize : List Nat
deriving DecidableEq

/-- `DirEntry::isDirectory`: `attr & 0x10` (bit 4 of the attribute byte). -/
def DirEntry.isDirectory (en : DirEntry) : Bool :=
  en.attr / 16 % 2 = 1

/-- `DirEntry::getStartCluster`: `readLE16(startCluster)`. -/
def DirEntry.getStartCluster (en : DirEntry) : Nat :=
  en.startCluster.getD 0 0 + 256 * en.startCluster.getD 1 0

/-- `DirEntry::getFileSize`: little-endian 32-bit read of the four size bytes. -/
def DirEntry.getFileSize (en : DirEntry) : Nat :=
  en.fileSize.getD 0 0 + 256 * en.fileSize.getD 1 0 + 65536 * en.fileSize.getD 2 0 +
    16777216 * en.fileSize.getD 3 0

/-- `memcpy(&entry, p, 32)` of `readRootDirectory`/`readSubDirectory`:
reinterpret the 32 bytes at `off` as a `DirEntry`. -/
def parseDirEntry (img : Image) (off : Nat) : DirEntry :=
  { name := bytesAt img off 8
    ext := bytesAt img (off + 8) 3
    attr := img.byte (off + 11)
    reserved := bytesAt img (off + 12) 10
    time := bytesAt img (off + 22) 2
    date := bytesAt img (off + 24) 2
    startCluster := bytesAt img (off + 26) 2
    fileSize := bytesAt img (off + 28) 4 }

/-- `AtariDiskEngine::validateBootChecksum`: sum of the 256 big-endian
16-bit words of the boot sector in wrapping `uint16_t` arithmetic,
compared against `BOOT_CHECKSUM_TARGET = 0x1234`. -/
def validateBootChecksum (e : Engine) : Bool :=
  ((List.range 256).foldl
      (fun s i => (s + e.image.readBE16 (e.internalOffset + 2 * i)) % 65536) 0) == 0x1234

/-- `AtariDiskEngine::fat1Offset`: `readLE16(base + 0x0B) * SECTOR_SIZE`
(the code reads offset 0x0B although its comment speaks of 0x0E). -/
def fat1Offset (e : Engine) : Nat :=
  e.image.readLE16 (e.internalOffset + 0x0B) * 512

/-- `AtariDiskEngine::getNextCluster`: FAT12 decode at
`byteOffset = current * 3 / 2` relative to `fat1Offset`, with the
out-of-image guard returning the sentinel 0xFFF. Even clusters take the
low 12 bits of the little-endian word, odd clusters the word shifted
right 4. -/
def getNextCluster (e : Engine) (currentCluster : Nat) : Nat :=
  let byteOffset := currentCluster * 3 / 2
  if e.image.size ≤ byteOffset + 1 then 0xFFF
  else
    let raw := e.image.readLE16 (fat1Offset e + byteOffset)
    if currentCluster % 2 = 1 then raw / 16 else raw % 4096

/-- The inlined FAT12 read used by `getClusterChain`, `deleteFile` and
`getDiskStats`: decode the entry of `current` from the FAT starting at
byte `fo` (the code always uses `fo = 1 * SECTOR_SIZE = 512`).
The C expressions `b0 | ((b1 & 0x0F) << 8)` and `(b0 >> 4) | (b1 << 4)`
are written as sums, exact for `uint8_t` operands. -/
def readFat12 (img : Image) (fo current : Nat) : Nat :=
  if current % 2 = 0 then
    img.byte (fo + current * 3 / 2) + img.byte (fo + current * 3 / 2 + 1) % 16 * 256
  else
    img.byte (fo + current * 3 / 2) / 16 + img.byte (fo + current * 3 / 2 + 1) * 16

/-- The `while` loop of `AtariDiskEngine::getClusterChain`. The loop
pushes `current`, then stops on an out-of-bounds FAT read, an
end-of-chain or unallocated link, a self-loop, or once the chain holds
more than 1440 entries; the fuel argument is never exhausted when
called with fuel larger than the 1441-entry cap (see
`chainLoop_fuel_irrelevant`). -/
def chainLoop (e : Engine) : Nat → Nat → List Nat → List Nat
  | 0, _, acc => acc.reverse
  | fuel + 1, current, acc =>
    if 2 ≤ current ∧ current < 0xFF0 then
      let acc' := current :: acc
      let idx := current * 3 / 2
      if e.image.size ≤ 512 + idx + 1 then acc'.reverse
      else
        let next := readFat12 e.image (e.internalOffset + 512) current
        if 0xFF8 ≤ next ∨ next = 0 then acc'.reverse
        else if next = current ∨ 1440 < acc'.length then acc'.reverse
        else chainLoop e fuel next acc'
    else acc.reverse

/-- `AtariDiskEngine::getClusterChain`: guard on empty images and start
clusters outside `[2, 0xFF0)`, then run the chain walk. -/
def getClusterChain (e : Engine) (startCluster : Nat) : List Nat :=
  if e.image.size = 0 ∨ startCluster < 2 ∨ 0xFF0 ≤ startCluster then []
  else chainLoop e 1442 startCluster []

/-- `AtariDiskEngine::clusterOffset`: 0 for empty images or clusters
below 2; otherwise the data start sector comes from the BPB fields
(with the big-endian fallback when the reserved count is implausible),
or the fixed sector 14 in `HatariGuess` mode, or the default 18; the
sectors-per-cluster factor is 1 in `HatariGuess` mode and 2 otherwise. -/
def clusterOffset (e : Engine) (cluster : Nat) : Nat :=
  if e.image.size = 0 ∨ cluster < 2 then 0
  else
    let io := e.internalOffset
    let dataStartSector :=
      if e.geoMode = GeometryMode.BPB then
        let reserved0 := e.image.readLE16 (io + 0x0E)
        let fatCount := e.image.byte (io + 0x10)
        if reserved0 = 0 ∨ 500 < reserved0 then
          e.image.readBE16 (io + 0x0E) + fatCount * e.image.readBE16 (io + 0x16) +
            (e.image.readBE16 (io + 0x11) * 32 + 511) / 512
        else
          reserved0 + fatCount * e.image.readLE16 (io + 0x16) +
            (e.image.readLE16 (io + 0x11) * 32 + 511) / 512
      else if e.geoMode = GeometryMode.HatariGuess then 14
      else 18
    let spc := if e.geoMode = GeometryMode.HatariGuess then 1 else 2
    io + (dataStartSector + (cluster - 2) * spc) * 512

/-- The brute-force scan of `readRootDirectory` (step 2): probe sectors
1 through 29 for a plausible directory signature (first byte uppercase
alphanumeric, attribute byte at offset 11 at most 0x3F); an
out-of-bounds probe breaks the scan. Fuel counts the remaining sectors. -/
def bruteScanFrom (e : Engine) : Nat → Nat → Option Nat
  | _, 0 => none
  | sector, fuel + 1 =>
    if 30 ≤ sector then none
    else if e.image.size < sector * 512 + 32 then none
    else
      let b0 := e.image.byte (e.internalOffset + sector * 512)
      let attr := e.image.byte (e.internalOffset + sector * 512 + 11)
      if ((65 ≤ b0 ∧ b0 ≤ 90) ∨ (48 ≤ b0 ∧ b0 ≤ 57)) ∧ attr ≤ 0x3F then
        some (sector * 512)
      else bruteScanFrom e (sector + 1) fuel

/-- The geometry-discovery phase of `AtariDiskEngine::readRootDirectory`
(steps 1, 2 and the final fallback): returns the byte offset of the
root directory and the geometry mode the call stores in `m_geoMode`. -/
def rootDiscovery (e : Engine) : Nat × GeometryMode :=
  let io := e.internalOffset
  let r0 := e.image.readLE16 (io + 0x0E)
  let reserved := if r0 = 0 ∨ 500 < r0 then e.image.readBE16 (io + 0x0E) else r0
  let fatCount := e.image.byte (io + 0x10)
  let f0 := e.image.readLE16 (io + 0x16)
  let fatSize := if f0 = 0 ∨ 500 < f0 then e.image.readBE16 (io + 0x16) else f0
  if 0 < reserved ∧ reserved < 10 ∧ 0 < fatCount ∧ fatCount ≤ 2 ∧ 0 < fatSize then
    ((reserved + fatCount * fatSize) * 512, GeometryMode.BPB)
  else
    match bruteScanFrom e 1 29 with
    | some off => (off, GeometryMode.HatariGuess)
    | none => (11 * 512, GeometryMode.BPB)

/-- The entry-extraction loop of `readRootDirectory` (step 3): up to 112
records of 32 bytes from the discovered root offset, stopping on an
out-of-bounds record, a 0x00 first byte or a garbage name, skipping
deleted records and volume labels. Fuel counts the remaining slots. -/
def rootEntriesAux (e : Engine) (found : Nat) : Nat → Nat → List DirEntry
  | 0, _ => []
  | fuel + 1, i =>
    if e.image.size < found + i * 32 + 32 then []
    else
      let off := e.internalOffset + found + i * 32
      let b0 := e.image.byte off
      if b0 = 0 then []
      else if b0 = 0xE5 then rootEntriesAux e found fuel (i + 1)
      else if (List.range 8).any (fun j =>
          let c := e.image.byte (off + j)
          decide (c ≠ 32 ∧ (c < 32 ∨ 126 < c))) then []
      else
        let en := parseDirEntry e.image off
        if en.attr / 8 % 2 = 1 then rootEntriesAux e found fuel (i + 1)
        else en :: rootEntriesAux e found fuel (i + 1)

/-- `AtariDiskEngine::readRootDirectory`, return value: the list of
parsed entries (empty when no image is loaded). -/
def readRootDirectory (e : Engine) : List DirEntry :=
  if e.image.size = 0 then [] else rootEntriesAux e (rootDiscovery e).1 112 0

/-- The side effect of `readRootDirectory` on the mutable `m_geoMode`
field: when an image is loaded the discovered mode is stored. -/
def afterReadRoot (e : Engine) : Engine :=
  if e.image.size = 0 then e else { e with geoMode := (rootDiscovery e).2 }

/-- Inner sector loop of `AtariDiskEngine::readFile`: per cluster,
`spc` sectors are visited; each iteration appends
`min(SECTOR_SIZE, fileSize - data.size())` bytes when they fit in the
image (an out-of-bounds read breaks the sector loop), and the loop
breaks once the declared size is reached. The first argument counts
the remaining sectors of the cluster, the second is the byte offset of
the next sector. -/
def readSectors (e : Engine) (fileSize : Nat) : Nat → Nat → List Nat → List Nat
  | 0, _, data => data
  | left + 1, off, data =>
    let toRead := min 512 (fileSize - data.length)
    if 0 < toRead then
      if off + toRead ≤ e.image.size then
        let data' := data ++ (List.range toRead).map (fun j => e.image.byte (off + j))
        if fileSize ≤ data'.length then data'
        else readSectors e fileSize left (off + 512) data'
      else data
    else if fileSize ≤ data.length then data
    else readSectors e fileSize left (off + 512) data

/-- Outer cluster loop of `AtariDiskEngine::readFile`: visit the chain
clusters in order, breaking once the declared size is reached. -/
def readClusters (e : Engine) (fileSize spc : Nat) : List Nat → List Nat → List Nat
  | [], data => data
  | cluster :: rest, data =>
    let data' := readSectors e fileSize spc (clusterOffset e cluster) data
    if fileSize ≤ data'.length then data'
    else readClusters e fileSize spc rest data'

/-- `AtariDiskEngine::readFile`: empty result for zero-size entries,
unloaded images and sizes above the 4 MiB sanity cap; otherwise copy
along the cluster chain of the start cluster. -/
def readFile (e : Engine) (entry : DirEntry) : List Nat :=
  let fileSize := entry.getFileSize
  if fileSize = 0 ∨ e.image.size = 0 then []
  else if 4 * 1024 * 1024 < fileSize then []
  else
    let chain := getClusterChain e entry.getStartCluster
    let spc := if e.geoMode = GeometryMode.HatariGuess then 1 else 2
    readClusters e fileSize spc chain []

/-- One packed FAT12 store of the `injectFile` FAT loop, preserving the
nibble shared with the adjacent entry: even clusters store
`v & 0xFF` and `(old & 0xF0) | ((v >> 8) & 0x0F)`, odd clusters store
`(old & 0x0F) | ((v << 4) & 0xF0)` and `(v >> 4) & 0xFF`. In the even
branch the C code reads the high byte after the first store, but the
two cells differ, so the pre-store byte read here is the same value. -/
def setFat12 (img : Image) (fo current v : Nat) : Image :=
  if current % 2 = 0 then
    (img.writeByte (fo + current * 3 / 2) (v % 256)).writeByte (fo + current * 3 / 2 + 1)
      (img.byte (fo + current * 3 / 2 + 1) / 16 % 16 * 16 + v / 256 % 16)
  else
    (img.writeByte (fo + current * 3 / 2)
        (img.byte (fo + current * 3 / 2) % 16 + v % 16 * 16)).writeByte
      (fo + current * 3 / 2 + 1) (v / 16 % 256)

/-- The FAT loop of `injectFile`: for `i < clustersNeeded` write the
entry of cluster `startCluster + i`, linking to the successor and
terminating the last entry with 0xFFF. Here the loop is unrolled from
the front: the second argument is the current cluster, the third the
number of entries still to write. -/
def injectChainWrite (img : Image) : Nat → Nat → Image
  | _, 0 => img
  | current, 1 => setFat12 img 512 current 0xFFF
  | current, n + 2 => injectChainWrite (setFat12 img 512 current (current + 1)) (current + 1) (n + 1)

/-- The image mutations of the `injectFile` success path, in program
order: the FAT chain write for `ceil(len / 1024)` clusters starting at
cluster 2, the FAT mirror copy (5 sectors from sector 1 to sector 6),
the directory record at root slot `entryIndex` (name, extension,
attribute 0x20, start cluster 2, little-endian size), and the guarded
data copy at `18 * SECTOR_SIZE = 9216`. -/
def injectImage (img : Image) (baseName ext fileData : List Nat) (entryIndex : Nat) : Image :=
  writeLE32
    (writeLE16
      ((writeBytesList
          (writeBytesList (copyRegion (injectChainWrite img 2 ((fileData.length + 1023) / 1024)) 3072 512 2560)
            (5632 + entryIndex * 32) baseName)
          (5632 + entryIndex * 32 + 8) ext).writeByte
        (5632 + entryIndex * 32 + 11) 0x20)
      (5632 + entryIndex * 32 + 26) 2)
    (5632 + entryIndex * 32 + 28) fileData.length

/-- The data copy of `injectFile`, guarded by
`physOffset + fileData.size() <= m_image.size()`. -/
def injectImageData (img : Image) (baseName ext fileData : List Nat) (entryIndex : Nat) : Image :=
  if 9216 + fileData.length ≤ img.size then
    writeBytesList (injectImage img baseName ext fileData entryIndex) 9216 fileData
  else injectImage img baseName ext fileData entryIndex

/-- `AtariDiskEngine::injectFile`, with the host-file reading of
`QFile`/`QFileInfo` abstracted into the already padded 8-byte name, the
3-byte extension and the content bytes. Returns the C++ boolean result
together with the engine state after the call (the state is unchanged
on the failure paths). Offsets are the hardcoded ones of the code:
root at `11 * SECTOR_SIZE = 5632`, FAT1 at 512, mirror at
`6 * SECTOR_SIZE = 3072`, data at `18 * SECTOR_SIZE = 9216`. -/
def injectFile (e : Engine) (baseName ext fileData : List Nat) : Bool × Engine :=
  if 716800 < fileData.length then (false, e)
  else
    match (List.range 112).find? (fun i => e.image.byte (5632 + i * 32) == 0) with
    | none => (false, e)
    | some entryIndex =>
      (true, { e with image := injectImageData e.image baseName ext fileData entryIndex })

/-- The per-entry wipe of the `deleteFile` FAT loop: even clusters
store 0 and `old & 0xF0`, odd clusters store `old & 0x0F` and 0, so the
nibble shared with the adjacent entry survives. -/
def wipeFat12 (img : Image) (current : Nat) : Image :=
  if current % 2 = 0 then
    (img.writeByte (512 + current * 3 / 2) 0).writeByte (512 + current * 3 / 2 + 1)
      (img.byte (512 + current * 3 / 2 + 1) / 16 % 16 * 16)
  else
    (img.writeByte (512 + current * 3 / 2) (img.byte (512 + current * 3 / 2) % 16)).writeByte
      (512 + current * 3 / 2 + 1) 0

/-- The FAT-clearing `while` loop of `deleteFile`: look up the next
link, wipe the entry of `current`, stop on end-of-chain or unallocated
links. Every recursive step zeroes an entry that was nonzero, so at
most 4081 iterations can occur; `deleteFile` calls this with fuel
4100, which is therefore never exhausted. -/
def wipeLoop (img : Image) : Nat → Nat → Image
  | 0, _ => img
  | fuel + 1, current =>
    if 2 ≤ current ∧ current < 0xFF0 then
      let next := readFat12 img 512 current
      if 0xFF8 ≤ next ∨ next = 0 then wipeFat12 img current
      else wipeLoop (wipeFat12 img current) fuel next
    else img

/-- The image mutations of the `deleteFile` success path, in program
order: mark root slot `i` deleted (0xE5), clear the FAT chain from the
entry start cluster, re-sync the second FAT (5 sectors from sector 1
to sector 6). -/
def deleteImage (img : Image) (entry : DirEntry) (i : Nat) : Image :=
  copyRegion (wipeLoop (img.writeByte (5632 + i * 32) 0xE5) 4100 entry.getStartCluster)
    3072 512 2560

/-- `AtariDiskEngine::deleteFile`: fails on unloaded images and
directories; finds the first root slot (root hardcoded at sector 11)
whose 11 name+extension bytes match the entry, marks it 0xE5, clears
the FAT chain from the entry start cluster and re-syncs the second FAT
(5 sectors from sector 1 to sector 6). Returns the C++ boolean and the
resulting engine state. -/
def deleteFile (e : Engine) (entry : DirEntry) : Bool × Engine :=
  if e.image.size = 0 then (false, e)
  else if entry.isDirectory then (false, e)
  else
    match (List.range 112).find? (fun i =>
        bytesAt e.image (5632 + i * 32) 8 == entry.name &&
          bytesAt e.image (5632 + i * 32 + 8) 3 == entry.ext) with
    | none => (false, e)
    | some i => (true, { e with image := deleteImage e.image entry i })

/-- The all-zero image of `m_image.assign(n, 0)`. -/
def zeroImage (n : Nat) : Image :=
  { size := n, byte := fun _ => 0 }

/-- The explicit byte stores of `createNew720KImage`: jump opcode, OEM
name "ANTIGRAV", and the 720K BPB fields. -/
def bpbWrites : List (Nat × Nat) :=
  [(0, 0xEB), (1, 0x34), (2, 0x90),
   (3, 65), (4, 78), (5, 84), (6, 73), (7, 71), (8, 82), (9, 65), (10, 86),
   (0x0B, 0x00), (0x0C, 0x02), (0x0D, 0x02), (0x0E, 0x01), (0x0F, 0x00),
   (0x10, 0x02), (0x11, 0x70), (0x12, 0x00), (0x13, 0xA0), (0x14, 0x05),
   (0x15, 0xF9), (0x16, 0x05), (0x17, 0x00)]

/-- The 737280-byte buffer of `createNew720KImage` before the checksum
stamp. -/
def blank720Base : Image :=
  bpbWrites.foldl (fun img p => img.writeByte p.1 p.2) (zeroImage 737280)

/-- The finished buffer of `createNew720KImage`: the big-endian word
sum of bytes 0..509 is computed in wrapping `uint16_t` arithmetic and
`0x1234 - sum` is stored big-endian at bytes 510/511. -/
def blank720Image : Image :=
  let sum := (List.range 255).foldl (fun s i => (s + blank720Base.readBE16 (2 * i)) % 65536) 0
  let checksum := (0x1234 + 65536 - sum) % 65536
  (blank720Base.writeByte 510 (checksum / 256 % 256)).writeByte 511 (checksum % 256)

/-- `AtariDiskEngine::createNew720KImage`: the resulting engine state
(`m_geoMode = BPB`, `m_internalOffset = 0`). -/
def createNew720KImage : Engine :=
  { image := blank720Image, internalOffset := 0, geoMode := GeometryMode.BPB }

/-- The free-cluster scan of `AtariDiskEngine::getDiskStats`: total
clusters are `(size - 18 * 512) / (spc * 512)` and a cluster is free
when its FAT entry decodes to 0x000. -/
def freeClusters (e : Engine) : Nat :=
  let spc := if e.geoMode = GeometryMode.HatariGuess then 1 else 2
  let totalClusters := (e.image.size - 9216) / (spc * 512)
  ((List.range totalClusters).filter (fun j => readFat12 e.image 512 (j + 2) == 0)).length

/-- `stats.freeBytes` of `getDiskStats`: `freeClusters * spc * SECTOR_SIZE`. -/
def freeBytes (e : Engine) : Nat :=
  freeClusters e * ((if e.geoMode = GeometryMode.HatariGuess then 1 else 2) * 512)

/-- All bytes of the image are `uint8_t` values (below 256). Every image
reachable through the engine satisfies this; writes normalize, so only
the initial buffer needs the assumption. -/
def Image.Bounded (img : Image) : Prop :=
  ∀ o, img.byte o < 256

/-- The directory entry that `injectFile` creates on a blank 720K
image: the given padded name and extension, archive attribute 0x20,
start cluster 2, the little-endian size limbs, and the zero bytes the
blank image already held in the reserved/time/date area. -/
def injectedEntry (baseName ext : List Nat) (len : Nat) : DirEntry :=
  { name := baseName
    ext := ext
    attr := 0x20
    reserved := List.replicate 10 0
    time := [0, 0]
    date := [0, 0]
    startCluster := [2, 0]
    fileSize := [len % 256, len / 256 % 256, len / 65536 % 256, len / 16777216 % 256] }

/-- FAT-link reachability: the clusters visited when repeatedly
following `readFat12 img 512` from a start cluster, stepping only
through links that the chain/wipe loops treat as live (source in
`[2, 0xFF0)`, link neither end-of-chain nor 0). -/
inductive Reaches (img : Image) : Nat → Nat → Prop
  | refl (a : Nat) : Reaches img a a
  | step (a b c : Nat) : Reaches img a b → 2 ≤ b → b < 0xFF0 →
      readFat12 img 512 b = c → ¬ (0xFF8 ≤ c ∨ c = 0) → Reaches img a c

/-- Number of nonzero FAT12 entries among clusters 0..4079: the
termination measure of the `deleteFile` wipe loop (each recursive step
zeroes a nonzero entry). -/
def fatNonzeroCount (img : Image) : Nat :=
  ((List.range 4080).filter (fun c => decide (readFat12 img 512 c ≠ 0))).length

/-- Test image for the FAT12 decode claims: FAT bytes 0x03 0x40 0x00 at
the FAT base (the bytes-per-sector field at 0x0B/0x0C reads 0, so
`fat1Offset` is 0). -/
def eC4 : Engine :=
  { image := { size := 512, byte := fun o => if o = 0 then 0x03 else if o = 1 then 0x40 else 0 } }

/-- Test image for the chain-cap claim: a two-sector (1024-byte) image
whose FAT links 2 → 4 → 6 → end-of-chain, so the chain has three
entries while the image has only two sectors. -/
def eC5 : Engine :=
  { image := { size := 1024, byte := fun o =>
      if o = 515 then 4 else if o = 518 then 6 else
      if o = 521 then 255 else if o = 522 then 15 else 0 } }

/-- Test image for the geometry claims: zero reserved-sector field but
FAT count 2 and sectors-per-FAT 5 in the BPB, and a plausible directory
signature at sector 1 picked up by the brute scan. -/
def eC3x : Engine :=
  { image := { size := 4096, byte := fun o =>
      if o = 0x10 then 2 else if o = 0x16 then 5 else if o = 512 then 65 else 0 } }

/-- Test image for the heuristic-scan claim: zero reserved-sector
field, no signature before sector 7, and a plausible directory
signature (uppercase first byte, small attribute) at sector 7. -/
def eC9w : Engine :=
  { image := { size := 4096, byte := fun o => if o = 3584 then 65 else 0 } }

/-- Test image for the delete claims: a standard 720K BPB, the same
entry (name "AAAAAAAA", extension "AAA", start cluster 0) duplicated in
root slots 0 and 1. -/
def eDup : Engine :=
  { image := { size := 737280, byte := fun o =>
      if o = 0x0E then 1 else if o = 0x10 then 2 else if o = 0x16 then 5 else
      if (5632 ≤ o ∧ o < 5643) ∨ (5664 ≤ o ∧ o < 5675) then 65 else 0 } }

/-- The duplicated entry of `eDup` as parsed from either slot. -/
def Edup : DirEntry :=
  { name := List.replicate 8 65, ext := List.replicate 3 65, attr := 0
    reserved := List.replicate 10 0, time := [0, 0], date := [0, 0]
    startCluster := [0, 0], fileSize := [0, 0, 0, 0] }

/-- Witness image for the delete claims: a standard 720K BPB, one root
entry "DELME.DAT" with start cluster 2, and the FAT chain 2 → 3 →
end-of-chain. -/
def eDel : Engine :=
  { image := { size := 737280, byte := fun o =>
      if o = 0x0E then 1 else if o = 0x10 then 2 else if o = 0x16 then 5 else
      if o = 515 then 3 else if o = 516 then 0xF0 else if o = 517 then 0xFF else
      if o = 5632 then 68 else if o = 5633 then 69 else if o = 5634 then 76 else
      if o = 5635 then 77 else if o = 5636 then 69 else if 5637 ≤ o ∧ o < 5640 then 32 else
      if o = 5640 then 68 else if o = 5641 then 65 else if o = 5642 then 84 else
      if o = 5658 then 2 else 0 } }

/-- The single root entry of `eDel`. -/
def Edel : DirEntry :=
  { name := [68, 69, 76, 77, 69, 32, 32, 32], ext := [68, 65, 84], attr := 0
    reserved := List.replicate 10 0, time := [0, 0], date := [0, 0]
    startCluster := [2, 0], fileSize := [0, 0, 0, 0] }

/-- Image whose root slots are all occupied (every byte is 1), so the
free-slot scan of `injectFile` fails. -/
def eFull : Engine :=
  { image := { size := 737280, byte := fun _ => 1 } }

/-- A directory-flagged entry (attribute 0x10), which `deleteFile`
refuses to delete. -/
def dirEntryW : DirEntry :=
  { name := List.replicate 8 65, ext := List.replicate 3 32, attr := 0x10
    reserved := List.replicate 10 0, time := [0, 0], date := [0, 0]
    startCluster := [2, 0], fileSize := [0, 0, 0, 0] }

end Atari

set_option maxRecDepth 20000

namespace Atari

theorem Image.writeByte_size (img : Image) (off v : Nat) : (img.writeByte off v).size = img.size := rfl

theorem Image.writeByte_byte_eq (img : Image) (off v : Nat) : (img.writeByte off v).byte off = v % 256 := by
  simp [Image.writeByte]

theorem Image.writeByte_byte_ne (img : Image) (off v o : Nat) (h : o ≠ off) :
    (img.writeByte off v).byte o = img.byte o := by
  simp [Image.writeByte, h]

theorem copyRegion_size (img : Image) (dst src len : Nat) : (copyRegion img dst src len).size = img.size := rfl

theorem copyRegion_byte_lo (img : Image) (dst src len o : Nat) (h : o < dst) :
    (copyRegion img dst src len).byte o = img.byte o := by
  simp only [copyRegion]
  rw [if_neg (by omega)]

theorem copyRegion_byte_hi (img : Image) (dst src len o : Nat) (h : dst + len ≤ o) :
    (copyRegion img dst src len).byte o = img.byte o := by
  simp only [copyRegion]
  rw [if_neg (by omega)]

theorem copyRegion_byte_mid (img : Image) (dst src len o : Nat) (h1 : dst ≤ o) (h2 : o < dst + len) :
    (copyRegion img dst src len).byte o = img.byte (src + (o - dst)) := by
  simp only [copyRegion]
  rw [if_pos (by omega)]

theorem writeBytesList_size (img : Image) (off : Nat) (bs : List Nat) :
    (writeBytesList img off bs).size = img.size := rfl

theorem writeBytesList_byte_lo (img : Image) (off : Nat) (bs : List Nat) (o : Nat) (h : o < off) :
    (writeBytesList img off bs).byte o = img.byte o := by
  simp only [writeBytesList]
  rw [if_neg (by omega)]

theorem writeBytesList_byte_hi (img : Image) (off : Nat) (bs : List Nat) (o : Nat)
    (h : off + bs.length ≤ o) :
    (writeBytesList img off bs).byte o = img.byte o := by
  simp only [writeBytesList]
  rw [if_neg (by omega)]

theorem writeBytesList_byte_mid (img : Image) (off : Nat) (bs : List Nat) (o : Nat)
    (h1 : off ≤ o) (h2 : o < off + bs.length) :
    (writeBytesList img off bs).byte o = bs.getD (o - off) 0 % 256 := by
  simp only [writeBytesList]
  rw [if_pos (by omega)]

theorem writeLE16_size (img : Image) (off v : Nat) : (writeLE16 img off v).size = img.size := rfl

theorem writeLE16_byte_lo (img : Image) (off v o : Nat) (h : o < off) :
    (writeLE16 img off v).byte o = img.byte o := by
  simp only [writeLE16]
  rw [Image.writeByte_byte_ne _ _ _ _ (by omega), Image.writeByte_byte_ne _ _ _ _ (by omega)]

theorem writeLE16_byte_hi (img : Image) (off v o : Nat) (h : off + 2 ≤ o) :
    (writeLE16 img off v).byte o = img.byte o := by
  simp only [writeLE16]
  rw [Image.writeByte_byte_ne _ _ _ _ (by omega), Image.writeByte_byte_ne _ _ _ _ (by omega)]

theorem writeLE32_size (img : Image) (off v : Nat) : (writeLE32 img off v).size = img.size := rfl

theorem writeLE32_byte_lo (img : Image) (off v o : Nat) (h : o < off) :
    (writeLE32 img off v).byte o = img.byte o := by
  simp only [writeLE32]
  rw [Image.writeByte_byte_ne _ _ _ _ (by omega), Image.writeByte_byte_ne _ _ _ _ (by omega),
    Image.writeByte_byte_ne _ _ _ _ (by omega), Image.writeByte_byte_ne _ _ _ _ (by omega)]

theorem writeLE32_byte_hi (img : Image) (off v o : Nat) (h : off + 4 ≤ o) :
    (writeLE32 img off v).byte o = img.byte o := by
  simp only [writeLE32]
  rw [Image.writeByte_byte_ne _ _ _ _ (by omega), Image.writeByte_byte_ne _ _ _ _ (by omega),
    Image.writeByte_byte_ne _ _ _ _ (by omega), Image.writeByte_byte_ne _ _ _ _ (by omega)]

theorem setFat12_size (img : Image) (fo c v : Nat) : (setFat12 img fo c v).size = img.size := by
  unfold setFat12
  split <;> rfl

theorem setFat12_byte_lo (img : Image) (fo c v o : Nat) (h : o < fo + c * 3 / 2) :
    (setFat12 img fo c v).byte o = img.byte o := by
  unfold setFat12
  split <;>
    rw [Image.writeByte_byte_ne _ _ _ _ (by omega), Image.writeByte_byte_ne _ _ _ _ (by omega)]

theorem setFat12_byte_hi (img : Image) (fo c v o : Nat) (h : fo + c * 3 / 2 + 1 < o) :
    (setFat12 img fo c v).byte o = img.byte o := by
  unfold setFat12
  split <;>
    rw [Image.writeByte_byte_ne _ _ _ _ (by omega), Image.writeByte_byte_ne _ _ _ _ (by omega)]

theorem Image.writeByte_bounded (img : Image) (off v : Nat) (h : img.Bounded) :
    (img.writeByte off v).Bounded := by
  intro o
  by_cases ho : o = off
  · subst ho; rw [Image.writeByte_byte_eq]; omega
  · rw [Image.writeByte_byte_ne _ _ _ _ ho]; exact h o

theorem copyRegion_bounded (img : Image) (dst src len : Nat) (h : img.Bounded) :
    (copyRegion img dst src len).Bounded := by
  intro o
  simp only [copyRegion]
  split <;> exact h _

theorem writeBytesList_bounded (img : Image) (off : Nat) (bs : List Nat) (h : img.Bounded) :
    (writeBytesList img off bs).Bounded := by
  intro o
  simp only [writeBytesList]
  split
  · omega
  · exact h _

theorem setFat12_bounded (img : Image) (fo c v : Nat) (h : img.Bounded) :
    (setFat12 img fo c v).Bounded := by
  unfold setFat12
  split <;> exact Image.writeByte_bounded _ _ _ (Image.writeByte_bounded _ _ _ h)

theorem readFat12_congr (img1 img2 : Image) (fo c : Nat)
    (h0 : img1.byte (fo + c * 3 / 2) = img2.byte (fo + c * 3 / 2))
    (h1 : img1.byte (fo + c * 3 / 2 + 1) = img2.byte (fo + c * 3 / 2 + 1)) :
    readFat12 img1 fo c = readFat12 img2 fo c := by
  unfold readFat12
  rw [h0, h1]

theorem readFat12_even (img : Image) (fo c : Nat) (hc : c % 2 = 0) :
    readFat12 img fo c = img.byte (fo + c * 3 / 2) + img.byte (fo + c * 3 / 2 + 1) % 16 * 256 := by
  unfold readFat12
  rw [if_pos hc]

theorem readFat12_odd (img : Image) (fo c : Nat) (hc : c % 2 = 1) :
    readFat12 img fo c = img.byte (fo + c * 3 / 2) / 16 + img.byte (fo + c * 3 / 2 + 1) * 16 := by
  unfold readFat12
  rw [if_neg (by omega)]

theorem setFat12_bytes_even (img : Image) (fo c v : Nat) (hc : c % 2 = 0) :
    (setFat12 img fo c v).byte (fo + c * 3 / 2) = v % 256 % 256 ∧
    (setFat12 img fo c v).byte (fo + c * 3 / 2 + 1) =
      (img.byte (fo + c * 3 / 2 + 1) / 16 % 16 * 16 + v / 256 % 16) % 256 := by
  unfold setFat12
  rw [if_pos hc]
  constructor
  · rw [Image.writeByte_byte_ne _ _ _ _ (by omega), Image.writeByte_byte_eq]
  · rw [Image.writeByte_byte_eq]

theorem setFat12_bytes_odd (img : Image) (fo c v : Nat) (hc : c % 2 = 1) :
    (setFat12 img fo c v).byte (fo + c * 3 / 2) =
      (img.byte (fo + c * 3 / 2) % 16 + v % 16 * 16) % 256 ∧
    (setFat12 img fo c v).byte (fo + c * 3 / 2 + 1) = v / 16 % 256 % 256 := by
  unfold setFat12
  rw [if_neg (by omega)]
  constructor
  · rw [Image.writeByte_byte_ne _ _ _ _ (by omega), Image.writeByte_byte_eq]
  · rw [Image.writeByte_byte_eq]

theorem setFat12_read_self (img : Image) (fo c v : Nat) (hv : v < 4096) :
    readFat12 (setFat12 img fo c v) fo c = v := by
  rcases Nat.mod_two_eq_zero_or_one c with hc | hc
  · obtain ⟨h0, h1⟩ := setFat12_bytes_even img fo c v hc
    rw [readFat12_even _ _ _ hc, h0, h1]
    omega
  · obtain ⟨h0, h1⟩ := setFat12_bytes_odd img fo c v hc
    rw [readFat12_odd _ _ _ hc, h0, h1]
    omega

theorem setFat12_read_lt (img : Image) (fo c v c0 : Nat) (h : c0 < c) :
    readFat12 (setFat12 img fo c v) fo c0 = readFat12 img fo c0 := by
  rcases Nat.lt_or_ge c0 (c - 1) with hfar | hnear
  · -- written entry at least two clusters above the reader: disjoint bytes
    apply readFat12_congr
    · rw [setFat12_byte_lo _ _ _ _ _ (by omega)]
    · rw [setFat12_byte_lo _ _ _ _ _ (by omega)]
  · have hc1 : c = c0 + 1 := by omega
    subst hc1
    rcases Nat.mod_two_eq_zero_or_one c0 with hc0 | hc0
    · -- even reader, odd written successor: the shared byte keeps its low nibble
      have hcw : (c0 + 1) % 2 = 1 := by omega
      obtain ⟨hw0, _⟩ := setFat12_bytes_odd img fo (c0 + 1) v hcw
      have hidx : fo + (c0 + 1) * 3 / 2 = fo + c0 * 3 / 2 + 1 := by omega
      rw [hidx] at hw0
      rw [readFat12_even _ _ _ hc0, readFat12_even _ _ _ hc0,
        setFat12_byte_lo _ _ _ _ _ (by omega), hw0]
      omega
    · -- odd reader, even written successor: disjoint bytes
      apply readFat12_congr
      · rw [setFat12_byte_lo _ _ _ _ _ (by omega)]
      · rw [setFat12_byte_lo _ _ _ _ _ (by omega)]

theorem setFat12_read_gt (img : Image) (fo c v c0 : Nat) (h : c < c0)
    (hb : img.byte (fo + c * 3 / 2 + 1) < 256) :
    readFat12 (setFat12 img fo c v) fo c0 = readFat12 img fo c0 := by
  rcases Nat.lt_or_ge (c + 1) c0 with hfar | hnear
  · apply readFat12_congr
    · rw [setFat12_byte_hi _ _ _ _ _ (by omega)]
    · rw [setFat12_byte_hi _ _ _ _ _ (by omega)]
  · have hc1 : c0 = c + 1 := by omega
    subst hc1
    rcases Nat.mod_two_eq_zero_or_one c with hc | hc
    · -- even written entry, odd reader above: the shared byte keeps its
      -- high nibble (this is where the uint8 bound on the old byte matters)
      have hcr : (c + 1) % 2 = 1 := by omega
      obtain ⟨_, hw1⟩ := setFat12_bytes_even img fo c v hc
      have hidx : fo + (c + 1) * 3 / 2 = fo + c * 3 / 2 + 1 := by omega
      rw [readFat12_odd _ _ _ hcr, readFat12_odd _ _ _ hcr, hidx,
        hw1, setFat12_byte_hi _ _ _ _ _ (by omega)]
      omega
    · -- odd written entry, even reader above: disjoint bytes
      apply readFat12_congr
      · rw [setFat12_byte_hi _ _ _ _ _ (by omega)]
      · rw [setFat12_byte_hi _ _ _ _ _ (by omega)]

end Atari

namespace Atari

theorem wipeFat12_size (img : Image) (c : Nat) : (wipeFat12 img c).size = img.size := by
  unfold wipeFat12
  split <;> rfl

theorem wipeFat12_byte_lo (img : Image) (c o : Nat) (h : o < 512 + c * 3 / 2) :
    (wipeFat12 img c).byte o = img.byte o := by
  unfold wipeFat12
  split <;>
    rw [Image.writeByte_byte_ne _ _ _ _ (by omega), Image.writeByte_byte_ne _ _ _ _ (by omega)]

theorem wipeFat12_byte_hi (img : Image) (c o : Nat) (h : 512 + c * 3 / 2 + 1 < o) :
    (wipeFat12 img c).byte o = img.byte o := by
  unfold wipeFat12
  split <;>
    rw [Image.writeByte_byte_ne _ _ _ _ (by omega), Image.writeByte_byte_ne _ _ _ _ (by omega)]

theorem wipeFat12_bytes_even (img : Image) (c : Nat) (hc : c % 2 = 0) :
    (wipeFat12 img c).byte (512 + c * 3 / 2) = 0 % 256 ∧
    (wipeFat12 img c).byte (512 + c * 3 / 2 + 1) =
      img.byte (512 + c * 3 / 2 + 1) / 16 % 16 * 16 % 256 := by
  unfold wipeFat12
  rw [if_pos hc]
  constructor
  · rw [Image.writeByte_byte_ne _ _ _ _ (by omega), Image.writeByte_byte_eq]
  · rw [Image.writeByte_byte_eq]

theorem wipeFat12_bytes_odd (img : Image) (c : Nat) (hc : c % 2 = 1) :
    (wipeFat12 img c).byte (512 + c * 3 / 2) = img.byte (512 + c * 3 / 2) % 16 % 256 ∧
    (wipeFat12 img c).byte (512 + c * 3 / 2 + 1) = 0 % 256 := by
  unfold wipeFat12
  rw [if_neg (by omega)]
  constructor
  · rw [Image.writeByte_byte_ne _ _ _ _ (by omega), Image.writeByte_byte_eq]
  · rw [Image.writeByte_byte_eq]

theorem wipeFat12_bounded (img : Image) (c : Nat) (h : img.Bounded) :
    (wipeFat12 img c).Bounded := by
  unfold wipeFat12
  split <;> exact Image.writeByte_bounded _ _ _ (Image.writeByte_bounded _ _ _ h)

theorem wipeFat12_read_self (img : Image) (c : Nat) :
    readFat12 (wipeFat12 img c) 512 c = 0 := by
  rcases Nat.mod_two_eq_zero_or_one c with hc | hc
  · obtain ⟨h0, h1⟩ := wipeFat12_bytes_even img c hc
    rw [readFat12_even _ _ _ hc, h0, h1]
    omega
  · obtain ⟨h0, h1⟩ := wipeFat12_bytes_odd img c hc
    rw [readFat12_odd _ _ _ hc, h0, h1]
    omega

theorem wipeFat12_read_ne (img : Image) (c c0 : Nat) (hne : c0 ≠ c) (hb : img.Bounded) :
    readFat12 (wipeFat12 img c) 512 c0 = readFat12 img 512 c0 := by
  rcases Nat.lt_or_ge c0 c with hlt | hge
  · rcases Nat.lt_or_ge c0 (c - 1) with hfar | hnear
    · apply readFat12_congr
      · rw [wipeFat12_byte_lo _ _ _ (by omega)]
      · rw [wipeFat12_byte_lo _ _ _ (by omega)]
    · have hc1 : c = c0 + 1 := by omega
      subst hc1
      rcases Nat.mod_two_eq_zero_or_one c0 with hc0 | hc0
      · -- even reader, odd wiped successor: the shared byte keeps its low nibble
        have hcw : (c0 + 1) % 2 = 1 := by omega
        obtain ⟨hw0, _⟩ := wipeFat12_bytes_odd img (c0 + 1) hcw
        have hidx : 512 + (c0 + 1) * 3 / 2 = 512 + c0 * 3 / 2 + 1 := by omega
        rw [hidx] at hw0
        rw [readFat12_even _ _ _ hc0, readFat12_even _ _ _ hc0,
          wipeFat12_byte_lo _ _ _ (by omega), hw0]
        omega
      · apply readFat12_congr
        · rw [wipeFat12_byte_lo _ _ _ (by omega)]
        · rw [wipeFat12_byte_lo _ _ _ (by omega)]
  · rcases Nat.lt_or_ge (c + 1) c0 with hfar | hnear
    · apply readFat12_congr
      · rw [wipeFat12_byte_hi _ _ _ (by omega)]
      · rw [wipeFat12_byte_hi _ _ _ (by omega)]
    · have hc1 : c0 = c + 1 := by omega
      subst hc1
      rcases Nat.mod_two_eq_zero_or_one c with hc | hc
      · -- even wiped entry, odd reader above: the shared byte keeps its
        -- high nibble (requires the uint8 bound on the old byte)
        have hcr : (c + 1) % 2 = 1 := by omega
        obtain ⟨_, hw1⟩ := wipeFat12_bytes_even img c hc
        have hidx : 512 + (c + 1) * 3 / 2 = 512 + c * 3 / 2 + 1 := by omega
        have hbb := hb (512 + c * 3 / 2 + 1)
        rw [readFat12_odd _ _ _ hcr, readFat12_odd _ _ _ hcr, hidx,
          hw1, wipeFat12_byte_hi _ _ _ (by omega)]
        omega
      · apply readFat12_congr
        · rw [wipeFat12_byte_hi _ _ _ (by omega)]
        · rw [wipeFat12_byte_hi _ _ _ (by omega)]

theorem chainLoop_length_le (e : Engine) :
    ∀ (fuel current : Nat) (acc : List Nat), acc.length ≤ 1440 →
      (chainLoop e fuel current acc).length ≤ 1441 := by
  intro fuel
  induction fuel with
  | zero =>
    intro current acc h
    simp only [chainLoop, List.length_reverse]
    omega
  | succ n ih =>
    intro current acc h
    simp only [chainLoop]
    split
    · split
      · simp only [List.length_reverse, List.length_cons]
        omega
      · split
        · simp only [List.length_reverse, List.length_cons]
          omega
        · split
          · simp only [List.length_reverse, List.length_cons]
            omega
          · rename_i hcap
            apply ih
            simp only [List.length_cons, not_or, not_lt] at hcap
            simp only [List.length_cons]
            omega
    · simp only [List.length_reverse]
      omega

theorem chainLoop_fuel_irrelevant (e : Engine) :
    ∀ (f g current : Nat) (acc : List Nat), acc.length ≤ 1440 →
      1440 - acc.length < f → 1440 - acc.length < g →
      chainLoop e f current acc = chainLoop e g current acc := by
  intro f
  induction f with
  | zero =>
    intro g current acc h hf hg
    omega
  | succ n ih =>
    intro g current acc h hf hg
    cases g with
    | zero => omega
    | succ m =>
      simp only [chainLoop]
      split
      · split
        · rfl
        · split
          · rfl
          · split
            · rfl
            · rename_i hcap
              simp only [List.length_cons, not_or, not_lt] at hcap
              apply ih
              · simp only [List.length_cons]
                omega
              · simp only [List.length_cons]
                omega
              · simp only [List.length_cons]
                omega
      · rfl

/-- C5 (amended): for every engine state and start cluster the chain
walk terminates with a result of length at most 1441 — one beyond the
hardcoded 1440-entry cap, which is a fixed constant rather than the
image total sector count — and any fuel of at least 1442 simulates the
unbounded C++ loop exactly. -/
theorem C5_chain_walk_cap :
    ∀ (e : Engine) (start : Nat),
      (getClusterChain e start).length ≤ 1441 ∧
      ∀ f, 1442 ≤ f → chainLoop e f start [] = chainLoop e 1442 start [] := by
  intro e start
  constructor
  · unfold getClusterChain
    split
    · simp
    · exact chainLoop_length_le e 1442 start [] (by simp)
  · intro f hf
    exact chainLoop_fuel_irrelevant e f 1442 start [] (by simp) (by simp; omega) (by simp)

/-- C5 witness: the amended cap theorem applied to the concrete cyclic
image `eC5` with fuel 1500. -/
theorem C5_chain_walk_cap_witness :
    1442 ≤ 1500 ∧ chainLoop eC5 1500 2 [] = chainLoop eC5 1442 2 [] :=
  ⟨by norm_num, (C5_chain_walk_cap eC5 2).2 1500 (by norm_num)⟩

/-- C5 counterexample: on the two-sector image `eC5` the chain from
cluster 2 has three entries, exceeding the image total sector count of
2, so the cap is not the image sector count as claimed. -/
theorem C5_chain_walk_cap_cex :
    ¬ ((getClusterChain eC5 2).length ≤ eC5.image.size / 512) := by decide

/-- C4 (amended): `getNextCluster` decodes the FAT12 entry at byte
offset `current * 3 / 2`: for even clusters the low 12 bits of the
little-endian 16-bit word there, for odd clusters that word shifted
right 4. On raw FAT bytes 0x03 0x40 0x00 this gives
`nextCluster 0 = 0x003` and `nextCluster 1 = 0x004` (not 0x000: the
word at offset 1 is 0x0040 and shifting right 4 yields 4). -/
theorem C4_fat12_decode :
    (∀ (e : Engine) (c : Nat), c * 3 / 2 + 1 < e.image.size →
      getNextCluster e c =
        if c % 2 = 1 then e.image.readLE16 (fat1Offset e + c * 3 / 2) / 16
        else e.image.readLE16 (fat1Offset e + c * 3 / 2) % 4096) ∧
    getNextCluster eC4 0 = 0x003 ∧ getNextCluster eC4 1 = 0x004 := by
  refine ⟨?_, by decide, by decide⟩
  intro e c h
  simp only [getNextCluster]
  rw [if_neg (by omega)]

/-- C4 witness: the decode formula applied to `eC4` at cluster 0. -/
theorem C4_fat12_decode_witness :
    0 * 3 / 2 + 1 < eC4.image.size ∧
    getNextCluster eC4 0 =
      (if 0 % 2 = 1 then eC4.image.readLE16 (fat1Offset eC4 + 0 * 3 / 2) / 16
       else eC4.image.readLE16 (fat1Offset eC4 + 0 * 3 / 2) % 4096) :=
  ⟨by decide, C4_fat12_decode.1 eC4 0 (by decide)⟩

/-- C4 counterexample: on raw FAT bytes 0x03 0x40 0x00 the claim
asserts `nextCluster 1 = 0x000`, but the code returns 0x004. -/
theorem C4_fat12_decode_cex : getNextCluster eC4 1 ≠ 0x000 := by decide

/-- C8: after `createNew720KImage`, `validateBootChecksum` (the
wrapping big-endian 16-bit word sum over the 512-byte boot sector
compared with 0x1234) returns true. -/
theorem C8_blank720_checksum : validateBootChecksum createNew720KImage = true := by decide

end Atari

namespace Atari

theorem bruteScanFrom_step (e : Engine) (s f : Nat) (h30 : s < 30)
    (hsz : ¬ e.image.size < s * 512 + 32)
    (hsig : ¬ (((65 ≤ e.image.byte (e.internalOffset + s * 512) ∧
        e.image.byte (e.internalOffset + s * 512) ≤ 90) ∨
      (48 ≤ e.image.byte (e.internalOffset + s * 512) ∧
        e.image.byte (e.internalOffset + s * 512) ≤ 57)) ∧
      e.image.byte (e.internalOffset + s * 512 + 11) ≤ 0x3F)) :
    bruteScanFrom e s (f + 1) = bruteScanFrom e (s + 1) f := by
  simp only [bruteScanFrom]
  rw [if_neg (by omega), if_neg hsz, if_neg hsig]

theorem bruteScanFrom_hit (e : Engine) (s f : Nat) (h30 : s < 30)
    (hsz : ¬ e.image.size < s * 512 + 32)
    (hsig : ((65 ≤ e.image.byte (e.internalOffset + s * 512) ∧
        e.image.byte (e.internalOffset + s * 512) ≤ 90) ∨
      (48 ≤ e.image.byte (e.internalOffset + s * 512) ∧
        e.image.byte (e.internalOffset + s * 512) ≤ 57)) ∧
      e.image.byte (e.internalOffset + s * 512 + 11) ≤ 0x3F) :
    bruteScanFrom e s (f + 1) = some (s * 512) := by
  simp only [bruteScanFrom]
  rw [if_neg (by omega), if_neg hsz, if_pos hsig]

theorem afterReadRoot_image (e : Engine) : (afterReadRoot e).image = e.image := by
  unfold afterReadRoot
  split <;> rfl

theorem afterReadRoot_internalOffset (e : Engine) :
    (afterReadRoot e).internalOffset = e.internalOffset := by
  unfold afterReadRoot
  split <;> rfl

theorem afterReadRoot_geoMode (e : Engine) (h : e.image.size ≠ 0) :
    (afterReadRoot e).geoMode = (rootDiscovery e).2 := by
  unfold afterReadRoot
  rw [if_neg h]

theorem clusterOffset_bpb (e : Engine) (c : Nat) (hm : e.geoMode = GeometryMode.BPB)
    (hsz : e.image.size ≠ 0) (hc : 2 ≤ c)
    (hr : ¬ (e.image.readLE16 (e.internalOffset + 0x0E) = 0 ∨
      500 < e.image.readLE16 (e.internalOffset + 0x0E))) :
    clusterOffset e c =
      e.internalOffset +
        (e.image.readLE16 (e.internalOffset + 0x0E) +
          e.image.byte (e.internalOffset + 0x10) * e.image.readLE16 (e.internalOffset + 0x16) +
          (e.image.readLE16 (e.internalOffset + 0x11) * 32 + 511) / 512 +
          (c - 2) * 2) * 512 := by
  simp only [clusterOffset]
  rw [if_neg (by omega), hm, if_pos rfl, if_neg hr, if_neg (by decide)]

theorem clusterOffset_hatari (e : Engine) (c : Nat)
    (hm : e.geoMode = GeometryMode.HatariGuess) (hsz : e.image.size ≠ 0) (hc : 2 ≤ c) :
    clusterOffset e c = e.internalOffset + (14 + (c - 2) * 1) * 512 := by
  simp only [clusterOffset]
  rw [if_neg (by omega), hm, if_neg (by decide), if_pos rfl, if_pos rfl]

/-- C3 (amended): when the little-endian BPB fields are directly
plausible — reserved sectors in (0, 10) (the code additionally requires
this upper bound), FAT count in {1, 2}, sectors-per-FAT in (0, 500]
(so that no endianness fallback fires) — the geometry discovery of
`readRootDirectory` resolves mode BPB, and `clusterOffset` then places
cluster `c` at
`reserved + fatCount * sectorsPerFat + ceil(rootEntries * 32 / 512)`
sectors plus two sectors per cluster above 2. -/
theorem C3_bpb_geometry :
    ∀ (e : Engine),
      e.image.size ≠ 0 →
      0 < e.image.readLE16 (e.internalOffset + 0x0E) →
      e.image.readLE16 (e.internalOffset + 0x0E) < 10 →
      0 < e.image.byte (e.internalOffset + 0x10) →
      e.image.byte (e.internalOffset + 0x10) ≤ 2 →
      0 < e.image.readLE16 (e.internalOffset + 0x16) →
      e.image.readLE16 (e.internalOffset + 0x16) ≤ 500 →
      (rootDiscovery e).2 = GeometryMode.BPB ∧
      ∀ c, 2 ≤ c →
        clusterOffset (afterReadRoot e) c =
          e.internalOffset +
            (e.image.readLE16 (e.internalOffset + 0x0E) +
              e.image.byte (e.internalOffset + 0x10) * e.image.readLE16 (e.internalOffset + 0x16) +
              (e.image.readLE16 (e.internalOffset + 0x11) * 32 + 511) / 512 +
              (c - 2) * 2) * 512 := by
  intro e hsz h1 h2 h3 h4 h5 h6
  have hr : (if e.image.readLE16 (e.internalOffset + 0x0E) = 0 ∨
        500 < e.image.readLE16 (e.internalOffset + 0x0E) then
      e.image.readBE16 (e.internalOffset + 0x0E) else e.image.readLE16 (e.internalOffset + 0x0E)) =
      e.image.readLE16 (e.internalOffset + 0x0E) := if_neg (by omega)
  have hf : (if e.image.readLE16 (e.internalOffset + 0x16) = 0 ∨
        500 < e.image.readLE16 (e.internalOffset + 0x16) then
      e.image.readBE16 (e.internalOffset + 0x16) else e.image.readLE16 (e.internalOffset + 0x16)) =
      e.image.readLE16 (e.internalOffset + 0x16) := if_neg (by omega)
  have hdisc : rootDiscovery e =
      ((e.image.readLE16 (e.internalOffset + 0x0E) +
        e.image.byte (e.internalOffset + 0x10) * e.image.readLE16 (e.internalOffset + 0x16)) * 512,
        GeometryMode.BPB) := by
    simp only [rootDiscovery, hr, hf]
    rw [if_pos ⟨h1, h2, h3, h4, h5⟩]
  refine ⟨by rw [hdisc], ?_⟩
  intro c hc
  have hm : (afterReadRoot e).geoMode = GeometryMode.BPB := by
    rw [afterReadRoot_geoMode e hsz, hdisc]
  rw [clusterOffset_bpb (afterReadRoot e) c hm (by rw [afterReadRoot_image]; exact hsz) hc
      (by rw [afterReadRoot_image, afterReadRoot_internalOffset]; omega),
    afterReadRoot_image, afterReadRoot_internalOffset]

/-- C3 witness: the amended geometry theorem applied to the blank 720K
image, whose BPB holds reserved = 1, FAT count = 2, sectors-per-FAT = 5
and 112 root entries, so cluster 2 sits at sector 18. -/
theorem C3_bpb_geometry_witness :
    createNew720KImage.image.size ≠ 0 ∧
    0 < createNew720KImage.image.readLE16 (createNew720KImage.internalOffset + 0x0E) ∧
    createNew720KImage.image.readLE16 (createNew720KImage.internalOffset + 0x0E) < 10 ∧
    0 < createNew720KImage.image.byte (createNew720KImage.internalOffset + 0x10) ∧
    createNew720KImage.image.byte (createNew720KImage.internalOffset + 0x10) ≤ 2 ∧
    0 < createNew720KImage.image.readLE16 (createNew720KImage.internalOffset + 0x16) ∧
    createNew720KImage.image.readLE16 (createNew720KImage.internalOffset + 0x16) ≤ 500 ∧
    (rootDiscovery createNew720KImage).2 = GeometryMode.BPB ∧
    clusterOffset (afterReadRoot createNew720KImage) 2 =
      createNew720KImage.internalOffset +
        (createNew720KImage.image.readLE16 (createNew720KImage.internalOffset + 0x0E) +
          createNew720KImage.image.byte (createNew720KImage.internalOffset + 0x10) *
            createNew720KImage.image.readLE16 (createNew720KImage.internalOffset + 0x16) +
          (createNew720KImage.image.readLE16 (createNew720KImage.internalOffset + 0x11) * 32 + 511) / 512 +
          (2 - 2) * 2) * 512 :=
  ⟨by decide, by decide, by decide, by decide, by decide, by decide, by decide,
    (C3_bpb_geometry createNew720KImage (by decide) (by decide) (by decide) (by decide)
      (by decide) (by decide) (by decide)).1,
    (C3_bpb_geometry createNew720KImage (by decide) (by decide) (by decide) (by decide)
      (by decide) (by decide) (by decide)).2 2 (by decide)⟩

/-- C3 counterexample: `eC3x` has FAT count 2 and sectors-per-FAT 5
(the validity condition stated by the claim), yet its zero
reserved-sector field sends the code to the brute scan, which finds a
signature at sector 1 and resolves HatariGuess, not StandardBPB. -/
theorem C3_bpb_geometry_cex :
    eC3x.image.byte (eC3x.internalOffset + 0x10) = 2 ∧
    eC3x.image.readLE16 (eC3x.internalOffset + 0x16) = 5 ∧
    (rootDiscovery eC3x).2 ≠ GeometryMode.BPB := by
  exact ⟨by decide, by decide, by decide⟩

/-- C9: on an image whose reserved-sector field is zero (both byte
orders) and whose first plausible directory signature sits at sector 7,
the geometry discovery resolves HatariGuess with root offset
`7 * 512`, and `clusterOffset` then uses the fixed heuristic data
start sector 14 (= root sector 7 plus the 7 root sectors) with one
sector per cluster. -/
theorem C9_heuristic_geometry :
    ∀ (e : Engine),
      e.image.size ≠ 0 →
      3616 ≤ e.image.size →
      e.image.byte (e.internalOffset + 0x0E) = 0 →
      e.image.byte (e.internalOffset + 0x0F) = 0 →
      (∀ s, s < 7 → 1 ≤ s →
        ¬ (((65 ≤ e.image.byte (e.internalOffset + s * 512) ∧
            e.image.byte (e.internalOffset + s * 512) ≤ 90) ∨
          (48 ≤ e.image.byte (e.internalOffset + s * 512) ∧
            e.image.byte (e.internalOffset + s * 512) ≤ 57)) ∧
          e.image.byte (e.internalOffset + s * 512 + 11) ≤ 0x3F)) →
      ((65 ≤ e.image.byte (e.internalOffset + 7 * 512) ∧
          e.image.byte (e.internalOffset + 7 * 512) ≤ 90) ∨
        (48 ≤ e.image.byte (e.internalOffset + 7 * 512) ∧
          e.image.byte (e.internalOffset + 7 * 512) ≤ 57)) →
      e.image.byte (e.internalOffset + 7 * 512 + 11) ≤ 0x3F →
      rootDiscovery e = (7 * 512, GeometryMode.HatariGuess) ∧
      ∀ c, 2 ≤ c → clusterOffset (afterReadRoot e) c =
        e.internalOffset + (14 + (c - 2) * 1) * 512 := by
  intro e hsz hsz2 h0E h0F hfail hsig hattr
  have h15 : e.internalOffset + 0x0E + 1 = e.internalOffset + 0x0F := by omega
  have hr0 : e.image.readLE16 (e.internalOffset + 0x0E) = 0 := by
    unfold Image.readLE16
    rw [h15, h0E, h0F]
  have hrB : e.image.readBE16 (e.internalOffset + 0x0E) = 0 := by
    unfold Image.readBE16
    rw [h15, h0E, h0F]
  have hscan : bruteScanFrom e 1 29 = some (7 * 512) := by
    rw [bruteScanFrom_step e 1 28 (by omega) (by omega) (hfail 1 (by omega) (by omega)),
      bruteScanFrom_step e 2 27 (by omega) (by omega) (hfail 2 (by omega) (by omega)),
      bruteScanFrom_step e 3 26 (by omega) (by omega) (hfail 3 (by omega) (by omega)),
      bruteScanFrom_step e 4 25 (by omega) (by omega) (hfail 4 (by omega) (by omega)),
      bruteScanFrom_step e 5 24 (by omega) (by omega) (hfail 5 (by omega) (by omega)),
      bruteScanFrom_step e 6 23 (by omega) (by omega) (hfail 6 (by omega) (by omega)),
      bruteScanFrom_hit e 7 22 (by omega) (by omega) ⟨hsig, hattr⟩]
  have hdisc : rootDiscovery e = (7 * 512, GeometryMode.HatariGuess) := by
    simp only [rootDiscovery, hr0, hrB, ite_self]
    rw [if_neg (fun h => absurd h.1 (by omega)), hscan]
  refine ⟨hdisc, ?_⟩
  intro c hc
  have hm : (afterReadRoot e).geoMode = GeometryMode.HatariGuess := by
    rw [afterReadRoot_geoMode e hsz, hdisc]
  rw [clusterOffset_hatari (afterReadRoot e) c hm (by rw [afterReadRoot_image]; exact hsz) hc,
    afterReadRoot_internalOffset]

/-- C9 witness: the heuristic-geometry theorem applied to `eC9w`. -/
theorem C9_heuristic_geometry_witness :
    eC9w.image.size ≠ 0 ∧ 3616 ≤ eC9w.image.size ∧
    rootDiscovery eC9w = (7 * 512, GeometryMode.HatariGuess) ∧
    clusterOffset (afterReadRoot eC9w) 3 = eC9w.internalOffset + (14 + (3 - 2) * 1) * 512 :=
  ⟨by decide, by decide,
    (C9_heuristic_geometry eC9w (by decide) (by decide) (by decide) (by decide) (by decide)
      (by decide) (by decide)).1,
    (C9_heuristic_geometry eC9w (by decide) (by decide) (by decide) (by decide) (by decide)
      (by decide) (by decide)).2 3 (by decide)⟩

/-- C7: whenever `injectFile` or `deleteFile` returns false, the
engine state (in particular the disk-image byte buffer) is exactly the
state before the call. -/
theorem C7_failure_no_mutation :
    ∀ (e : Engine) (bn ex fd : List Nat) (entry : DirEntry),
      ((injectFile e bn ex fd).1 = false → (injectFile e bn ex fd).2 = e) ∧
      ((deleteFile e entry).1 = false → (deleteFile e entry).2 = e) := by
  intro e bn ex fd entry
  constructor
  · unfold injectFile
    split
    · intro _
      rfl
    · split
      · intro _
        rfl
      · intro h
        simp at h
  · unfold deleteFile
    split
    · intro _
      rfl
    · split
      · intro _
        rfl
      · split
        · intro _
          rfl
        · intro h
          simp at h

/-- C7 witness: `injectFile` fails on `eFull` (no free root slot) and
`deleteFile` fails on a directory entry; both leave the engine state
unchanged. -/
theorem C7_failure_no_mutation_witness :
    (injectFile eFull [] [] []).1 = false ∧ (injectFile eFull [] [] []).2 = eFull ∧
    (deleteFile createNew720KImage dirEntryW).1 = false ∧
    (deleteFile createNew720KImage dirEntryW).2 = createNew720KImage :=
  ⟨by decide, (C7_failure_no_mutation eFull [] [] [] dirEntryW).1 (by decide),
    by decide, (C7_failure_no_mutation createNew720KImage [] [] [] dirEntryW).2 (by decide)⟩

theorem injectImageData_mirror (img : Image) (bn ex fd : List Nat) (i j : Nat) (hj : j < 2560) :
    (injectImageData img bn ex fd i).byte (3072 + j) =
    (injectImageData img bn ex fd i).byte (512 + j) := by
  have h32 : 512 + (3072 + j - 3072) = 512 + j := by omega
  unfold injectImageData
  split
  · unfold injectImage
    rw [writeBytesList_byte_lo _ _ _ (3072 + j) (by omega),
      writeBytesList_byte_lo _ _ _ (512 + j) (by omega),
      writeLE32_byte_lo _ _ _ (3072 + j) (by omega),
      writeLE32_byte_lo _ _ _ (512 + j) (by omega),
      writeLE16_byte_lo _ _ _ (3072 + j) (by omega),
      writeLE16_byte_lo _ _ _ (512 + j) (by omega),
      Image.writeByte_byte_ne _ _ _ (3072 + j) (by omega),
      Image.writeByte_byte_ne _ _ _ (512 + j) (by omega),
      writeBytesList_byte_lo _ _ _ (3072 + j) (by omega),
      writeBytesList_byte_lo _ _ _ (512 + j) (by omega),
      writeBytesList_byte_lo _ _ _ (3072 + j) (by omega),
      writeBytesList_byte_lo _ _ _ (512 + j) (by omega),
      copyRegion_byte_mid _ _ _ _ _ (by omega) (by omega),
      copyRegion_byte_lo _ _ _ _ _ (by omega), h32]
  · unfold injectImage
    rw [writeLE32_byte_lo _ _ _ (3072 + j) (by omega),
      writeLE32_byte_lo _ _ _ (512 + j) (by omega),
      writeLE16_byte_lo _ _ _ (3072 + j) (by omega),
      writeLE16_byte_lo _ _ _ (512 + j) (by omega),
      Image.writeByte_byte_ne _ _ _ (3072 + j) (by omega),
      Image.writeByte_byte_ne _ _ _ (512 + j) (by omega),
      writeBytesList_byte_lo _ _ _ (3072 + j) (by omega),
      writeBytesList_byte_lo _ _ _ (512 + j) (by omega),
      writeBytesList_byte_lo _ _ _ (3072 + j) (by omega),
      writeBytesList_byte_lo _ _ _ (512 + j) (by omega),
      copyRegion_byte_mid _ _ _ _ _ (by omega) (by omega),
      copyRegion_byte_lo _ _ _ _ _ (by omega), h32]

theorem deleteImage_mirror (img : Image) (entry : DirEntry) (i j : Nat) (hj : j < 2560) :
    (deleteImage img entry i).byte (3072 + j) = (deleteImage img entry i).byte (512 + j) := by
  have h32 : 512 + (3072 + j - 3072) = 512 + j := by omega
  unfold deleteImage
  rw [copyRegion_byte_mid _ _ _ _ _ (by omega) (by omega),
    copyRegion_byte_lo _ _ _ _ _ (by omega), h32]

/-- C6: immediately after a successful `injectFile` or `deleteFile`,
the secondary FAT region (sectors 6..10, bytes 3072..5631) is
byte-identical to the primary FAT region (sectors 1..5, bytes
512..3071). -/
theorem C6_fat_mirror_sync :
    ∀ (e : Engine) (bn ex fd : List Nat) (entry : DirEntry),
      ((injectFile e bn ex fd).1 = true →
        ∀ j, j < 2560 →
          (injectFile e bn ex fd).2.image.byte (3072 + j) =
          (injectFile e bn ex fd).2.image.byte (512 + j)) ∧
      ((deleteFile e entry).1 = true →
        ∀ j, j < 2560 →
          (deleteFile e entry).2.image.byte (3072 + j) =
          (deleteFile e entry).2.image.byte (512 + j)) := by
  intro e bn ex fd entry
  constructor
  · unfold injectFile
    split
    · intro h
      simp at h
    · split
      · intro h
        simp at h
      · intro _ j hj
        exact injectImageData_mirror e.image bn ex fd _ j hj
  · unfold deleteFile
    split
    · intro h
      simp at h
    · split
      · intro h
        simp at h
      · split
        · intro h
          simp at h
        · intro _ j hj
          exact deleteImage_mirror e.image entry _ j hj

/-- C6 witness: a successful injection of one byte into the blank 720K
image and a successful deletion on `eDel`, with the mirror identity
instantiated at offset 0. -/
theorem C6_fat_mirror_sync_witness :
    (injectFile createNew720KImage [72, 73, 32, 32, 32, 32, 32, 32] [84, 88, 84] [65]).1 = true ∧
    (deleteFile eDel Edel).1 = true ∧
    (injectFile createNew720KImage [72, 73, 32, 32, 32, 32, 32, 32] [84, 88, 84] [65]).2.image.byte
        (3072 + 0) =
      (injectFile createNew720KImage [72, 73, 32, 32, 32, 32, 32, 32] [84, 88, 84] [65]).2.image.byte
        (512 + 0) ∧
    (deleteFile eDel Edel).2.image.byte (3072 + 0) = (deleteFile eDel Edel).2.image.byte (512 + 0) :=
  ⟨by decide, by decide,
    (C6_fat_mirror_sync createNew720KImage [72, 73, 32, 32, 32, 32, 32, 32] [84, 88, 84] [65]
      Edel).1 (by decide) 0 (by decide),
    (C6_fat_mirror_sync eDel [] [] [] Edel).2 (by decide) 0 (by decide)⟩

theorem readSectors_length_le (e : Engine) (fs : Nat) :
    ∀ (left off : Nat) (data : List Nat), data.length ≤ fs →
      (readSectors e fs left off data).length ≤ fs := by
  intro left
  induction left with
  | zero =>
    intro off data h
    simpa only [readSectors] using h
  | succ n ih =>
    intro off data h
    simp only [readSectors]
    split
    · split
      · split
        · simp only [List.length_append, List.length_map, List.length_range]
          omega
        · apply ih
          simp only [List.length_append, List.length_map, List.length_range]
          omega
      · exact h
    · split
      · exact h
      · exact ih _ _ h

theorem readClusters_length_le (e : Engine) (fs spc : Nat) :
    ∀ (chain : List Nat) (data : List Nat), data.length ≤ fs →
      (readClusters e fs spc chain data).length ≤ fs := by
  intro chain
  induction chain with
  | nil =>
    intro data h
    simpa only [readClusters] using h
  | cons c rest ih =>
    intro data h
    simp only [readClusters]
    split
    · exact readSectors_length_le e fs spc _ data h
    · exact ih _ (readSectors_length_le e fs spc _ data h)

/-- C10: for every loaded image and every directory entry, `readFile`
returns at most `getFileSize` bytes, however long the cluster chain
is. -/
theorem C10_readFile_length :
    ∀ (e : Engine) (entry : DirEntry), e.image.size ≠ 0 →
      (readFile e entry).length ≤ entry.getFileSize := by
  intro e entry _
  simp only [readFile]
  split
  · simp
  · split
    · simp
    · exact readClusters_length_le e entry.getFileSize _ _ [] (by simp)

/-- C10 witness: the length bound applied to the blank 720K image and
a concrete entry. -/
theorem C10_readFile_length_witness :
    createNew720KImage.image.size ≠ 0 ∧
    (readFile createNew720KImage dirEntryW).length ≤ dirEntryW.getFileSize :=
  ⟨by decide, C10_readFile_length createNew720KImage dirEntryW (by decide)⟩

end Atari

namespace Atari

theorem injectChainWrite_size :
    ∀ (n : Nat) (img : Image) (c : Nat), (injectChainWrite img c n).size = img.size := by
  intro n
  induction n using Nat.strong_induction_on with
  | _ n ih =>
    intro img c
    match n with
    | 0 => rfl
    | 1 => exact setFat12_size img 512 c 0xFFF
    | m + 2 =>
      show (injectChainWrite (setFat12 img 512 c (c + 1)) (c + 1) (m + 1)).size = img.size
      rw [ih (m + 1) (by omega), setFat12_size]

theorem injectChainWrite_byte_lo :
    ∀ (n : Nat) (img : Image) (c o : Nat), o < 512 + c * 3 / 2 →
      (injectChainWrite img c n).byte o = img.byte o := by
  intro n
  induction n using Nat.strong_induction_on with
  | _ n ih =>
    intro img c o h
    match n with
    | 0 => rfl
    | 1 => exact setFat12_byte_lo img 512 c 0xFFF o h
    | m + 2 =>
      show (injectChainWrite (setFat12 img 512 c (c + 1)) (c + 1) (m + 1)).byte o = img.byte o
      rw [ih (m + 1) (by omega) _ (c + 1) o (by omega), setFat12_byte_lo img 512 c _ o h]

theorem injectChainWrite_byte_hi :
    ∀ (n : Nat) (img : Image) (c o : Nat), 512 + (c + n) * 3 / 2 + 1 < o →
      (injectChainWrite img c n).byte o = img.byte o := by
  intro n
  induction n using Nat.strong_induction_on with
  | _ n ih =>
    intro img c o h
    match n with
    | 0 => rfl
    | 1 => exact setFat12_byte_hi img 512 c 0xFFF o (by omega)
    | m + 2 =>
      show (injectChainWrite (setFat12 img 512 c (c + 1)) (c + 1) (m + 1)).byte o = img.byte o
      rw [ih (m + 1) (by omega) _ (c + 1) o (by omega), setFat12_byte_hi img 512 c _ o (by omega)]

theorem injectChainWrite_bounded :
    ∀ (n : Nat) (img : Image) (c : Nat), img.Bounded → (injectChainWrite img c n).Bounded := by
  intro n
  induction n using Nat.strong_induction_on with
  | _ n ih =>
    intro img c h
    match n with
    | 0 => exact h
    | 1 => exact setFat12_bounded img 512 c 0xFFF h
    | m + 2 =>
      show Image.Bounded (injectChainWrite (setFat12 img 512 c (c + 1)) (c + 1) (m + 1))
      exact ih (m + 1) (by omega) _ (c + 1) (setFat12_bounded img 512 c (c + 1) h)

theorem injectChainWrite_read_below :
    ∀ (n : Nat) (img : Image) (c c0 : Nat), c0 < c →
      readFat12 (injectChainWrite img c n) 512 c0 = readFat12 img 512 c0 := by
  intro n
  induction n using Nat.strong_induction_on with
  | _ n ih =>
    intro img c c0 h
    match n with
    | 0 => rfl
    | 1 => exact setFat12_read_lt img 512 c 0xFFF c0 h
    | m + 2 =>
      show readFat12 (injectChainWrite (setFat12 img 512 c (c + 1)) (c + 1) (m + 1)) 512 c0 =
        readFat12 img 512 c0
      rw [ih (m + 1) (by omega) _ (c + 1) c0 (by omega), setFat12_read_lt img 512 c _ c0 h]

/-- Read-back of the `injectFile` FAT loop: after writing an `n`-entry
contiguous chain from cluster `c`, the entry of cluster `c + j` decodes
to its successor, and the last one to the end-of-chain code 0xFFF. -/
theorem injectChainWrite_readback :
    ∀ (n : Nat) (img : Image) (c : Nat), img.Bounded → c + n < 4096 →
      ∀ j, j < n → readFat12 (injectChainWrite img c n) 512 (c + j) =
        if j = n - 1 then 0xFFF else c + j + 1 := by
  intro n
  induction n using Nat.strong_induction_on with
  | _ n ih =>
    intro img c hb hcn j hj
    match n, hj with
    | 1, _ =>
      have hj0 : j = 0 := by omega
      subst hj0
      rw [if_pos rfl]
      show readFat12 (setFat12 img 512 c 0xFFF) 512 (c + 0) = 0xFFF
      rw [Nat.add_zero]
      exact setFat12_read_self img 512 c 0xFFF (by omega)
    | m + 2, _ =>
      show readFat12 (injectChainWrite (setFat12 img 512 c (c + 1)) (c + 1) (m + 1)) 512 (c + j) =
        if j = m + 2 - 1 then 0xFFF else c + j + 1
      rcases Nat.eq_zero_or_pos j with hj0 | hjpos
      · subst hj0
        simp only [Nat.add_zero]
        rw [injectChainWrite_read_below (m + 1) _ (c + 1) c (by omega),
          setFat12_read_self img 512 c (c + 1) (by omega), if_neg (by omega)]
      · have hrec := ih (m + 1) (by omega) (setFat12 img 512 c (c + 1)) (c + 1)
          (setFat12_bounded img 512 c (c + 1) hb) (by omega) (j - 1) (by omega)
        rw [show c + 1 + (j - 1) = c + j from by omega] at hrec
        rw [hrec]
        by_cases hjm : j = m + 2 - 1
        · rw [if_pos (by omega), if_pos hjm]
        · rw [if_neg (by omega), if_neg hjm]

theorem zeroImage_bounded (n : Nat) : (zeroImage n).Bounded := by
  intro o
  simp [zeroImage]

theorem foldl_writeByte_bounded :
    ∀ (l : List (Nat × Nat)) (img : Image), img.Bounded →
      (l.foldl (fun i p => i.writeByte p.1 p.2) img).Bounded := by
  intro l
  induction l with
  | nil => intro img h; exact h
  | cons p t ih =>
    intro img h
    exact ih _ (Image.writeByte_bounded _ _ _ h)

theorem foldl_writeByte_byte_hi :
    ∀ (l : List (Nat × Nat)) (img : Image) (o : Nat), (∀ p ∈ l, p.1 < 512) → 512 ≤ o →
      (l.foldl (fun i p => i.writeByte p.1 p.2) img).byte o = img.byte o := by
  intro l
  induction l with
  | nil => intro img o _ _; rfl
  | cons p t ih =>
    intro img o hl ho
    have hp := hl p (by simp)
    rw [List.foldl_cons, ih _ o (fun q hq => hl q (by simp [hq])) ho,
      Image.writeByte_byte_ne _ _ _ o (by omega)]

theorem blank720_bounded : blank720Image.Bounded := by
  unfold blank720Image
  exact Image.writeByte_bounded _ _ _ (Image.writeByte_bounded _ _ _
    (foldl_writeByte_bounded bpbWrites (zeroImage 737280) (zeroImage_bounded 737280)))

theorem blank720_size : blank720Image.size = 737280 := rfl

/-- Every byte of the blank 720K image outside the boot sector is 0. -/
theorem blank720_byte_hi (o : Nat) (h : 512 ≤ o) : blank720Image.byte o = 0 := by
  unfold blank720Image
  rw [Image.writeByte_byte_ne _ _ _ o (by omega), Image.writeByte_byte_ne _ _ _ o (by omega)]
  unfold blank720Base
  rw [foldl_writeByte_byte_hi bpbWrites _ o (by decide) h]
  rfl

end Atari

namespace Atari

theorem writeLE16_byte_fst (img : Image) (off v : Nat) :
    (writeLE16 img off v).byte off = v % 256 % 256 := by
  unfold writeLE16
  rw [Image.writeByte_byte_ne _ _ _ _ (by omega), Image.writeByte_byte_eq]

theorem writeLE16_byte_snd (img : Image) (off v : Nat) :
    (writeLE16 img off v).byte (off + 1) = v / 256 % 256 % 256 := by
  unfold writeLE16
  rw [Image.writeByte_byte_eq]

theorem writeLE32_byte_limb (img : Image) (off v j : Nat) (hj : j < 4) :
    (writeLE32 img off v).byte (off + j) =
      [v % 256, v / 256 % 256, v / 65536 % 256, v / 16777216 % 256].getD j 0 % 256 := by
  unfold writeLE32
  interval_cases j
  · rw [Image.writeByte_byte_ne _ _ _ _ (by omega), Image.writeByte_byte_ne _ _ _ _ (by omega),
      Image.writeByte_byte_ne _ _ _ _ (by omega)]
    simp only [Nat.add_zero, Image.writeByte_byte_eq]
    rfl
  · rw [Image.writeByte_byte_ne _ _ _ _ (by omega), Image.writeByte_byte_ne _ _ _ _ (by omega),
      Image.writeByte_byte_eq]
    rfl
  · rw [Image.writeByte_byte_ne _ _ _ _ (by omega), Image.writeByte_byte_eq]
    rfl
  · rw [Image.writeByte_byte_eq]
    rfl

theorem injectImage_size (img : Image) (bn ex fd : List Nat) (i : Nat) :
    (injectImage img bn ex fd i).size = img.size := by
  unfold injectImage
  rw [writeLE32_size, writeLE16_size, Image.writeByte_size, writeBytesList_size,
    writeBytesList_size, copyRegion_size, injectChainWrite_size]

theorem injectImageData_size (img : Image) (bn ex fd : List Nat) (i : Nat) :
    (injectImageData img bn ex fd i).size = img.size := by
  unfold injectImageData
  split
  · rw [writeBytesList_size, injectImage_size]
  · rw [injectImage_size]

theorem injectImage_byte_low (img : Image) (bn ex fd : List Nat) (i o : Nat) (ho : o < 3072) :
    (injectImage img bn ex fd i).byte o =
      (injectChainWrite img 2 ((fd.length + 1023) / 1024)).byte o := by
  unfold injectImage
  rw [writeLE32_byte_lo _ _ _ o (by omega), writeLE16_byte_lo _ _ _ o (by omega),
    Image.writeByte_byte_ne _ _ _ o (by omega), writeBytesList_byte_lo _ _ _ o (by omega),
    writeBytesList_byte_lo _ _ _ o (by omega), copyRegion_byte_lo _ _ _ _ o (by omega)]

theorem injectImageData_byte_low (img : Image) (bn ex fd : List Nat) (i o : Nat) (ho : o < 3072) :
    (injectImageData img bn ex fd i).byte o =
      (injectChainWrite img 2 ((fd.length + 1023) / 1024)).byte o := by
  unfold injectImageData
  split
  · rw [writeBytesList_byte_lo _ _ _ o (by omega), injectImage_byte_low img bn ex fd i o ho]
  · exact injectImage_byte_low img bn ex fd i o ho

theorem injectImageData_byte_boot (img : Image) (bn ex fd : List Nat) (i o : Nat) (ho : o < 512) :
    (injectImageData img bn ex fd i).byte o = img.byte o := by
  rw [injectImageData_byte_low img bn ex fd i o (by omega),
    injectChainWrite_byte_lo _ img 2 o (by omega)]

theorem injectImageData_fat (img : Image) (bn ex fd : List Nat) (i c : Nat) (hc : c < 1700) :
    readFat12 (injectImageData img bn ex fd i) 512 c =
      readFat12 (injectChainWrite img 2 ((fd.length + 1023) / 1024)) 512 c := by
  apply readFat12_congr
  · exact injectImageData_byte_low img bn ex fd i _ (by omega)
  · exact injectImageData_byte_low img bn ex fd i _ (by omega)

theorem injectImageData_byte_between (img : Image) (bn ex fd : List Nat) (i o : Nat)
    (hk : fd.length ≤ 716800) (hbn : bn.length = 8) (hex : ex.length = 3)
    (h1 : 5632 + i * 32 + 32 ≤ o) (h2 : o < 9216) :
    (injectImageData img bn ex fd i).byte o = img.byte o := by
  have hkk : (fd.length + 1023) / 1024 ≤ 701 := by omega
  have hbase : (injectImage img bn ex fd i).byte o = img.byte o := by
    unfold injectImage
    rw [writeLE32_byte_hi _ _ _ o (by omega), writeLE16_byte_hi _ _ _ o (by omega),
      Image.writeByte_byte_ne _ _ _ o (by omega), writeBytesList_byte_hi _ _ _ o (by omega),
      writeBytesList_byte_hi _ _ _ o (by omega), copyRegion_byte_hi _ _ _ _ o (by omega),
      injectChainWrite_byte_hi _ img 2 o (by omega)]
  unfold injectImageData
  split
  · rw [writeBytesList_byte_lo _ _ _ o (by omega), hbase]
  · exact hbase

theorem injectImageData_byte_name (img : Image) (bn ex fd : List Nat) (i j : Nat)
    (hbn : bn.length = 8) (hi : i < 112) (hj : j < 8) :
    (injectImageData img bn ex fd i).byte (5632 + i * 32 + j) = bn.getD j 0 % 256 := by
  have hbase : (injectImage img bn ex fd i).byte (5632 + i * 32 + j) = bn.getD j 0 % 256 := by
    unfold injectImage
    rw [writeLE32_byte_lo _ _ _ _ (by omega), writeLE16_byte_lo _ _ _ _ (by omega),
      Image.writeByte_byte_ne _ _ _ _ (by omega), writeBytesList_byte_lo _ _ _ _ (by omega),
      writeBytesList_byte_mid _ _ _ _ (by omega) (by omega),
      show 5632 + i * 32 + j - (5632 + i * 32) = j from by omega]
  unfold injectImageData
  split
  · rw [writeBytesList_byte_lo _ _ _ _ (by omega), hbase]
  · exact hbase

theorem injectImageData_byte_ext (img : Image) (bn ex fd : List Nat) (i j : Nat)
    (hbn : bn.length = 8) (hex : ex.length = 3) (hi : i < 112) (hj : j < 3) :
    (injectImageData img bn ex fd i).byte (5632 + i * 32 + 8 + j) = ex.getD j 0 % 256 := by
  have hbase : (injectImage img bn ex fd i).byte (5632 + i * 32 + 8 + j) = ex.getD j 0 % 256 := by
    unfold injectImage
    rw [writeLE32_byte_lo _ _ _ _ (by omega), writeLE16_byte_lo _ _ _ _ (by omega),
      Image.writeByte_byte_ne _ _ _ _ (by omega),
      writeBytesList_byte_mid _ _ _ _ (by omega) (by omega),
      show 5632 + i * 32 + 8 + j - (5632 + i * 32 + 8) = j from by omega]
  unfold injectImageData
  split
  · rw [writeBytesList_byte_lo _ _ _ _ (by omega), hbase]
  · exact hbase

theorem injectImageData_byte_attr (img : Image) (bn ex fd : List Nat) (i : Nat) (hi : i < 112) :
    (injectImageData img bn ex fd i).byte (5632 + i * 32 + 11) = 0x20 % 256 := by
  have hbase : (injectImage img bn ex fd i).byte (5632 + i * 32 + 11) = 0x20 % 256 := by
    unfold injectImage
    rw [writeLE32_byte_lo _ _ _ _ (by omega), writeLE16_byte_lo _ _ _ _ (by omega),
      Image.writeByte_byte_eq]
  unfold injectImageData
  split
  · rw [writeBytesList_byte_lo _ _ _ _ (by omega), hbase]
  · exact hbase

theorem injectImageData_byte_mid32 (img : Image) (bn ex fd : List Nat) (i o : Nat)
    (hk : fd.length ≤ 716800) (hbn : bn.length = 8) (hex : ex.length = 3) (hi : i < 112)
    (h1 : 5632 + i * 32 + 12 ≤ o) (h2 : o < 5632 + i * 32 + 26) :
    (injectImageData img bn ex fd i).byte o = img.byte o := by
  have hkk : (fd.length + 1023) / 1024 ≤ 701 := by omega
  have hbase : (injectImage img bn ex fd i).byte o = img.byte o := by
    unfold injectImage
    rw [writeLE32_byte_lo _ _ _ o (by omega), writeLE16_byte_lo _ _ _ o (by omega),
      Image.writeByte_byte_ne _ _ _ o (by omega), writeBytesList_byte_hi _ _ _ o (by omega),
      writeBytesList_byte_hi _ _ _ o (by omega), copyRegion_byte_hi _ _ _ _ o (by omega),
      injectChainWrite_byte_hi _ img 2 o (by omega)]
  unfold injectImageData
  split
  · rw [writeBytesList_byte_lo _ _ _ o (by omega), hbase]
  · exact hbase

theorem injectImageData_byte_cluster (img : Image) (bn ex fd : List Nat) (i j : Nat)
    (hi : i < 112) (hj : j < 2) :
    (injectImageData img bn ex fd i).byte (5632 + i * 32 + 26 + j) =
      [2 % 256 % 256, 2 / 256 % 256 % 256].getD j 0 := by
  have hbase : (injectImage img bn ex fd i).byte (5632 + i * 32 + 26 + j) =
      [2 % 256 % 256, 2 / 256 % 256 % 256].getD j 0 := by
    unfold injectImage
    interval_cases j
    · rw [writeLE32_byte_lo _ _ _ _ (by omega)]
      simp only [Nat.add_zero]
      rw [writeLE16_byte_fst]
      rfl
    · rw [writeLE32_byte_lo _ _ _ _ (by omega),
        show 5632 + i * 32 + 26 + 1 = 5632 + i * 32 + 26 + 1 from rfl, writeLE16_byte_snd]
      rfl
  unfold injectImageData
  split
  · rw [writeBytesList_byte_lo _ _ _ _ (by omega), hbase]
  · exact hbase

theorem injectImageData_byte_sizefield (img : Image) (bn ex fd : List Nat) (i j : Nat)
    (hi : i < 112) (hj : j < 4) :
    (injectImageData img bn ex fd i).byte (5632 + i * 32 + 28 + j) =
      [fd.length % 256, fd.length / 256 % 256, fd.length / 65536 % 256,
        fd.length / 16777216 % 256].getD j 0 % 256 := by
  have hbase : (injectImage img bn ex fd i).byte (5632 + i * 32 + 28 + j) =
      [fd.length % 256, fd.length / 256 % 256, fd.length / 65536 % 256,
        fd.length / 16777216 % 256].getD j 0 % 256 := by
    unfold injectImage
    exact writeLE32_byte_limb _ _ _ j hj
  unfold injectImageData
  split
  · rw [writeBytesList_byte_lo _ _ _ _ (by omega), hbase]
  · exact hbase

theorem injectImageData_byte_data (img : Image) (bn ex fd : List Nat) (i p : Nat)
    (hg : 9216 + fd.length ≤ img.size) (hp : p < fd.length) :
    (injectImageData img bn ex fd i).byte (9216 + p) = fd.getD p 0 % 256 := by
  unfold injectImageData
  rw [if_pos hg, writeBytesList_byte_mid _ _ _ _ (by omega) (by omega),
    show 9216 + p - 9216 = p from by omega]

end Atari

namespace Atari

theorem list_getD_lt (l : List Nat) (j : Nat) (h : j < l.length) : l.getD j 0 = l[j] := by
  rw [List.getD_eq_getElem?_getD, List.getElem?_eq_getElem h]
  rfl

theorem range_map_shift (a q : Nat) :
    (List.range (q + 1)).map (fun j => a + j) = a :: (List.range q).map (fun j => a + 1 + j) := by
  rw [List.range_succ_eq_map, List.map_cons, List.map_map]
  simp only [Nat.add_zero]
  congr 1
  apply List.map_congr_left
  intro x _
  simp only [Function.comp_apply, Nat.succ_eq_add_one]
  omega

theorem rootDiscovery_bpb (e : Engine)
    (h1 : 0 < e.image.readLE16 (e.internalOffset + 0x0E))
    (h2 : e.image.readLE16 (e.internalOffset + 0x0E) < 10)
    (h3 : 0 < e.image.byte (e.internalOffset + 0x10))
    (h4 : e.image.byte (e.internalOffset + 0x10) ≤ 2)
    (h5 : 0 < e.image.readLE16 (e.internalOffset + 0x16))
    (h6 : e.image.readLE16 (e.internalOffset + 0x16) ≤ 500) :
    rootDiscovery e =
      ((e.image.readLE16 (e.internalOffset + 0x0E) +
        e.image.byte (e.internalOffset + 0x10) * e.image.readLE16 (e.internalOffset + 0x16)) * 512,
        GeometryMode.BPB) := by
  have hr : (if e.image.readLE16 (e.internalOffset + 0x0E) = 0 ∨
        500 < e.image.readLE16 (e.internalOffset + 0x0E) then
      e.image.readBE16 (e.internalOffset + 0x0E) else e.image.readLE16 (e.internalOffset + 0x0E)) =
      e.image.readLE16 (e.internalOffset + 0x0E) := if_neg (by omega)
  have hf : (if e.image.readLE16 (e.internalOffset + 0x16) = 0 ∨
        500 < e.image.readLE16 (e.internalOffset + 0x16) then
      e.image.readBE16 (e.internalOffset + 0x16) else e.image.readLE16 (e.internalOffset + 0x16)) =
      e.image.readLE16 (e.internalOffset + 0x16) := if_neg (by omega)
  simp only [rootDiscovery, hr, hf]
  rw [if_pos ⟨h1, h2, h3, h4, h5⟩]

theorem rootEntriesAux_stop_zero (e : Engine) (found fuel i : Nat)
    (hsz : ¬ e.image.size < found + i * 32 + 32)
    (hb : e.image.byte (e.internalOffset + found + i * 32) = 0) :
    rootEntriesAux e found (fuel + 1) i = [] := by
  simp only [rootEntriesAux]
  rw [if_neg hsz, if_pos hb]

theorem rootEntriesAux_push (e : Engine) (found fuel i : Nat)
    (hsz : ¬ e.image.size < found + i * 32 + 32)
    (hb0 : ¬ e.image.byte (e.internalOffset + found + i * 32) = 0)
    (hbE5 : ¬ e.image.byte (e.internalOffset + found + i * 32) = 0xE5)
    (hgarb : ((List.range 8).any fun j =>
      decide (e.image.byte (e.internalOffset + found + i * 32 + j) ≠ 32 ∧
        (e.image.byte (e.internalOffset + found + i * 32 + j) < 32 ∨
          126 < e.image.byte (e.internalOffset + found + i * 32 + j)))) = false)
    (hvol : ¬ (parseDirEntry e.image (e.internalOffset + found + i * 32)).attr / 8 % 2 = 1) :
    rootEntriesAux e found (fuel + 1) i =
      parseDirEntry e.image (e.internalOffset + found + i * 32) ::
        rootEntriesAux e found fuel (i + 1) := by
  simp only [rootEntriesAux]
  rw [if_neg hsz, if_neg hb0, if_neg hbE5, if_neg (by rw [hgarb]; exact Bool.false_ne_true),
    if_neg hvol]

/-- The chain walk over a contiguous FAT chain of `k` clusters starting
at `c` (successor links, last entry end-of-chain) returns exactly those
clusters in order. -/
theorem chainLoop_contiguous (e : Engine) :
    ∀ (k : Nat) (c : Nat) (acc : List Nat) (fuel : Nat),
      1 ≤ k → k ≤ fuel → 2 ≤ c → c + k ≤ 0xFF0 →
      (∀ j, j < k → readFat12 e.image (e.internalOffset + 512) (c + j) =
        if j = k - 1 then 0xFFF else c + j + 1) →
      (∀ j, j < k → 512 + (c + j) * 3 / 2 + 1 < e.image.size) →
      acc.length + k ≤ 1441 →
      chainLoop e fuel c acc = acc.reverse ++ (List.range k).map (fun j => c + j) := by
  intro k
  induction k with
  | zero =>
    intro c acc fuel h1
    omega
  | succ m ih =>
    intro c acc fuel _ hfuel hc2 hck hfat hsz hcap
    cases fuel with
    | zero => omega
    | succ f =>
      simp only [chainLoop]
      rw [if_pos ⟨hc2, by omega⟩]
      rw [if_neg (by have := hsz 0 (by omega); omega)]
      rcases Nat.eq_zero_or_pos m with hm | hm
      · subst hm
        have hnext : readFat12 e.image (e.internalOffset + 512) c = 0xFFF := by
          have h0 := hfat 0 (by omega)
          rw [if_pos (by omega)] at h0
          simpa using h0
        rw [hnext, if_pos (by omega), List.reverse_cons]
        congr 1
      · have hnext : readFat12 e.image (e.internalOffset + 512) c = c + 1 := by
          have h0 := hfat 0 (by omega)
          rw [if_neg (by omega)] at h0
          simpa using h0
        rw [hnext, if_neg (by omega), if_neg (by simp only [List.length_cons, not_or, not_lt]; omega)]
        have hfat' : ∀ j, j < m → readFat12 e.image (e.internalOffset + 512) (c + 1 + j) =
            if j = m - 1 then 0xFFF else c + 1 + j + 1 := by
          intro j hj
          have h' := hfat (j + 1) (by omega)
          rw [show c + (j + 1) = c + 1 + j from by omega] at h'
          by_cases hjm : j = m - 1
          · rw [if_pos (by omega)] at h'
            rw [if_pos hjm]
            exact h'
          · rw [if_neg (by omega)] at h'
            rw [if_neg hjm, h']
        have hsz' : ∀ j, j < m → 512 + (c + 1 + j) * 3 / 2 + 1 < e.image.size := by
          intro j hj
          have := hsz (j + 1) (by omega)
          omega
        rw [ih (c + 1) (c :: acc) f (by omega) (by omega) (by omega) (by omega) hfat' hsz'
          (by simp only [List.length_cons]; omega)]
        rw [List.reverse_cons, List.append_assoc, range_map_shift c m, List.singleton_append]

theorem map_range_block (e : Engine) (d t : Nat) :
    ((List.range d).map (fun p => e.image.byte (9216 + p)) ++
      (List.range t).map fun j => e.image.byte (9216 + d + j)) =
    (List.range (d + t)).map (fun p => e.image.byte (9216 + p)) := by
  rw [List.range_add, List.map_append, List.map_map]
  congr 1
  apply List.map_congr_left
  intro x _
  simp only [Function.comp_apply]
  congr 1
  omega

end Atari

namespace Atari

theorem readSectors_zero (e : Engine) (fs off : Nat) (data : List Nat) :
    readSectors e fs 0 off data = data := rfl

theorem readSectors_succ (e : Engine) (fs left off : Nat) (data : List Nat) :
    readSectors e fs (left + 1) off data =
      if 0 < min 512 (fs - data.length) then
        if off + min 512 (fs - data.length) ≤ e.image.size then
          if fs ≤ (data ++ (List.range (min 512 (fs - data.length))).map
              (fun j => e.image.byte (off + j))).length then
            data ++ (List.range (min 512 (fs - data.length))).map (fun j => e.image.byte (off + j))
          else readSectors e fs left (off + 512)
            (data ++ (List.range (min 512 (fs - data.length))).map (fun j => e.image.byte (off + j)))
        else data
      else if fs ≤ data.length then data
      else readSectors e fs left (off + 512) data := by
  simp only [readSectors]

theorem readClusters_cons (e : Engine) (fs spc c : Nat) (rest : List Nat) (data : List Nat) :
    readClusters e fs spc (c :: rest) data =
      if fs ≤ (readSectors e fs spc (clusterOffset e c) data).length then
        readSectors e fs spc (clusterOffset e c) data
      else readClusters e fs spc rest (readSectors e fs spc (clusterOffset e c) data) := by
  simp only [readClusters]

/-- One cluster of the `readFile` copy loop in the standard (two
sectors per cluster) layout, on contiguous data: starting with the
first `d` data-region bytes read and the cluster placed at `9216 + d`,
the loop extends the buffer to `min len (d + 1024)` bytes. -/
theorem readSectors_step (e : Engine) (len d : Nat) (hd : d < len)
    (hsz : 9216 + len ≤ e.image.size) :
    readSectors e len 2 (9216 + d)
        ((List.range d).map (fun p => e.image.byte (9216 + p))) =
      (List.range (min len (d + 1024))).map (fun p => e.image.byte (9216 + p)) := by
  have e2 : readSectors e len 2 (9216 + d)
      ((List.range d).map (fun p => e.image.byte (9216 + p))) =
      readSectors e len (1 + 1) (9216 + d)
        ((List.range d).map (fun p => e.image.byte (9216 + p))) := rfl
  rw [e2, readSectors_succ]
  simp only [List.length_map, List.length_range, List.length_append, map_range_block]
  rw [if_pos (show 0 < min 512 (len - d) by omega),
    if_pos (show 9216 + d + min 512 (len - d) ≤ e.image.size by omega)]
  by_cases hC : len ≤ d + min 512 (len - d)
  · rw [if_pos hC, show d + min 512 (len - d) = min len (d + 1024) from by omega]
  · rw [if_neg hC]
    have hmin : min 512 (len - d) = 512 := by omega
    rw [hmin, show 9216 + d + 512 = 9216 + (d + 512) from by omega]
    have e1 : readSectors e len 1 (9216 + (d + 512))
        ((List.range (d + 512)).map (fun p => e.image.byte (9216 + p))) =
        readSectors e len (0 + 1) (9216 + (d + 512))
          ((List.range (d + 512)).map (fun p => e.image.byte (9216 + p))) := rfl
    rw [e1, readSectors_succ]
    simp only [List.length_map, List.length_range, List.length_append, map_range_block]
    rw [if_pos (show 0 < min 512 (len - (d + 512)) by omega),
      if_pos (show 9216 + (d + 512) + min 512 (len - (d + 512)) ≤ e.image.size by omega)]
    by_cases hF : len ≤ d + 512 + min 512 (len - (d + 512))
    · rw [if_pos hF, show d + 512 + min 512 (len - (d + 512)) = min len (d + 1024) from by omega]
    · rw [if_neg hF]
      have hmin2 : min 512 (len - (d + 512)) = 512 := by omega
      rw [hmin2, readSectors_zero]
      exact congrArg (fun z => (List.range z).map (fun p => e.image.byte (9216 + p))) (by omega)

/-- The cluster loop of `readFile` over a contiguous chain covering the
whole file: after `cIdx` clusters the buffer holds the first
`1024 * cIdx` data bytes, and the remaining `q` clusters complete it to
the declared length. -/
theorem readClusters_full (e : Engine) (len k : Nat)
    (hk : k = (len + 1023) / 1024) (hlen0 : 0 < len)
    (hsz : 9216 + len ≤ e.image.size)
    (hco : ∀ cIdx, clusterOffset e (2 + cIdx) = 9216 + 1024 * cIdx) :
    ∀ (q cIdx : Nat), cIdx + q = k → 1 ≤ q →
      readClusters e len 2 ((List.range q).map (fun j => 2 + cIdx + j))
          ((List.range (1024 * cIdx)).map (fun p => e.image.byte (9216 + p))) =
        (List.range len).map (fun p => e.image.byte (9216 + p)) := by
  intro q
  induction q with
  | zero =>
    intro cIdx h h1
    omega
  | succ m ih =>
    intro cIdx hq _
    have hdlt : 1024 * cIdx < len := by omega
    rw [range_map_shift (2 + cIdx) m, readClusters_cons, hco cIdx,
      readSectors_step e len (1024 * cIdx) hdlt hsz]
    rcases Nat.eq_zero_or_pos m with hm | hm
    · subst hm
      have hminlen : min len (1024 * cIdx + 1024) = len := by omega
      rw [hminlen,
        if_pos (by simp only [List.length_map, List.length_range]; omega)]
    · have hmin : min len (1024 * cIdx + 1024) = 1024 * (cIdx + 1) := by omega
      rw [hmin, if_neg (by simp only [List.length_map, List.length_range]; omega)]
      have hlist : (List.range m).map (fun j => 2 + cIdx + 1 + j) =
          (List.range m).map (fun j => 2 + (cIdx + 1) + j) := by
        apply List.map_congr_left
        intro x _
        omega
      rw [hlist]
      exact ih (cIdx + 1) (by omega) (by omega)

end Atari

namespace Atari

/-- The root slot that `injectFile` fills on the blank 720K image
parses back to exactly the injected entry. -/
theorem inject_parse_slot0 (bn ex content : List Nat)
    (hbn : bn.length = 8) (hexl : ex.length = 3)
    (hlen : content.length ≤ 716800)
    (hnb : ∀ b ∈ bn, 32 ≤ b ∧ b ≤ 126) (hxb : ∀ b ∈ ex, b < 256) :
    parseDirEntry (injectImageData createNew720KImage.image bn ex content 0) 5632 = injectedEntry bn ex content.length := by
  have hname : ∀ j, j < 8 → (injectImageData createNew720KImage.image bn ex content 0).byte (5632 + j) = bn.getD j 0 := by
    intro j hj
    have h : (injectImageData createNew720KImage.image bn ex content 0).byte (5632 + j) = bn.getD j 0 % 256 :=
      injectImageData_byte_name createNew720KImage.image bn ex content 0 j hbn (by omega) hj
    have hb126 : bn.getD j 0 ≤ 126 := by
      rw [list_getD_lt bn j (by omega)]
      exact (hnb _ (List.getElem_mem _)).2
    rw [h]
    omega
  have hextb : ∀ j, j < 3 → (injectImageData createNew720KImage.image bn ex content 0).byte (5632 + 8 + j) = ex.getD j 0 := by
    intro j hj
    have h : (injectImageData createNew720KImage.image bn ex content 0).byte (5632 + 8 + j) = ex.getD j 0 % 256 :=
      injectImageData_byte_ext createNew720KImage.image bn ex content 0 j hbn hexl (by omega) hj
    have hb256 : ex.getD j 0 < 256 := by
      rw [list_getD_lt ex j (by omega)]
      exact hxb _ (List.getElem_mem _)
    rw [h]
    omega
  have hattr : (injectImageData createNew720KImage.image bn ex content 0).byte (5632 + 11) = 32 := by
    have h : (injectImageData createNew720KImage.image bn ex content 0).byte (5632 + 11) = 0x20 % 256 :=
      injectImageData_byte_attr createNew720KImage.image bn ex content 0 (by omega)
    rw [h]
  have hmid : ∀ j, 12 ≤ j → j < 26 → (injectImageData createNew720KImage.image bn ex content 0).byte (5632 + j) = 0 := by
    intro j h12 h26
    have h : (injectImageData createNew720KImage.image bn ex content 0).byte (5632 + j) = createNew720KImage.image.byte (5632 + j) :=
      injectImageData_byte_mid32 createNew720KImage.image bn ex content 0 (5632 + j)
        hlen hbn hexl (by omega) (by omega) (by omega)
    have h0 : blank720Image.byte (5632 + j) = 0 := blank720_byte_hi _ (by omega)
    exact h.trans h0
  have hclu : ∀ j, j < 2 → (injectImageData createNew720KImage.image bn ex content 0).byte (5632 + 26 + j) = [2, 0].getD j 0 := by
    intro j hj
    have h := injectImageData_byte_cluster createNew720KImage.image bn ex content 0 j (by omega) hj
    interval_cases j
    · exact h.trans (by decide)
    · exact h.trans (by decide)
  have hsizef : ∀ j, j < 4 → (injectImageData createNew720KImage.image bn ex content 0).byte (5632 + 28 + j) =
      [content.length % 256, content.length / 256 % 256, content.length / 65536 % 256,
        content.length / 16777216 % 256].getD j 0 := by
    intro j hj
    have h := injectImageData_byte_sizefield createNew720KImage.image bn ex content 0 j (by omega) hj
    rw [h]
    interval_cases j
    · show content.length % 256 % 256 = content.length % 256
      omega
    · show content.length / 256 % 256 % 256 = content.length / 256 % 256
      omega
    · show content.length / 65536 % 256 % 256 = content.length / 65536 % 256
      omega
    · show content.length / 16777216 % 256 % 256 = content.length / 16777216 % 256
      omega
  unfold parseDirEntry injectedEntry
  simp only [DirEntry.mk.injEq]
  refine ⟨?_, ?_, ?_, ?_, ?_, ?_, ?_, ?_⟩
  · apply List.ext_getElem
    · simp [bytesAt, hbn]
    · intro j h1 h2
      simp only [bytesAt, List.getElem_map, List.getElem_range]
      have hj8 : j < 8 := by simpa [bytesAt] using h1
      rw [hname j hj8]
      exact list_getD_lt bn j h2
  · apply List.ext_getElem
    · simp [bytesAt, hexl]
    · intro j h1 h2
      simp only [bytesAt, List.getElem_map, List.getElem_range]
      have hj3 : j < 3 := by simpa [bytesAt] using h1
      rw [hextb j hj3]
      exact list_getD_lt ex j h2
  · exact hattr
  · apply List.ext_getElem
    · simp [bytesAt]
    · intro j h1 h2
      simp only [bytesAt, List.getElem_map, List.getElem_range]
      have hj10 : j < 10 := by simpa [bytesAt] using h1
      rw [show 5632 + 12 + j = 5632 + (12 + j) from by omega,
        hmid (12 + j) (by omega) (by omega), List.getElem_replicate]
  · apply List.ext_getElem
    · simp [bytesAt]
    · intro j h1 h2
      simp only [bytesAt, List.getElem_map, List.getElem_range]
      have hj2 : j < 2 := by simpa [bytesAt] using h1
      rw [show 5632 + 22 + j = 5632 + (22 + j) from by omega,
        hmid (22 + j) (by omega) (by omega)]
      interval_cases j <;> rfl
  · apply List.ext_getElem
    · simp [bytesAt]
    · intro j h1 h2
      simp only [bytesAt, List.getElem_map, List.getElem_range]
      have hj2 : j < 2 := by simpa [bytesAt] using h1
      rw [show 5632 + 24 + j = 5632 + (24 + j) from by omega,
        hmid (24 + j) (by omega) (by omega)]
      interval_cases j <;> rfl
  · apply List.ext_getElem
    · simp [bytesAt]
    · intro j h1 h2
      simp only [bytesAt, List.getElem_map, List.getElem_range]
      have hj2 : j < 2 := by simpa [bytesAt] using h1
      rw [hclu j hj2]
      exact list_getD_lt [2, 0] j (by simpa using hj2)
  · apply List.ext_getElem
    · simp [bytesAt]
    · intro j h1 h2
      simp only [bytesAt, List.getElem_map, List.getElem_range]
      have hj4 : j < 4 := by simpa [bytesAt] using h1
      rw [hsizef j hj4]
      exact list_getD_lt _ j (by simpa using hj4)

end Atari

namespace Atari

/-- After a successful injection on the blank 720K image, the root
directory parse returns exactly the injected entry. -/
theorem inject_read_root (bn ex content : List Nat)
    (hbn : bn.length = 8) (hexl : ex.length = 3)
    (hlen : content.length ≤ 716800)
    (hnb : ∀ b ∈ bn, 32 ≤ b ∧ b ≤ 126) (hxb : ∀ b ∈ ex, b < 256) :
    readRootDirectory { createNew720KImage with image := injectImageData createNew720KImage.image bn ex content 0 } = [injectedEntry bn ex content.length] := by
  have hsizeID : (injectImageData createNew720KImage.image bn ex content 0).size = 737280 := by
    rw [injectImageData_size]
    rfl
  have hboot : ∀ o, o < 512 → (injectImageData createNew720KImage.image bn ex content 0).byte o = blank720Image.byte o := fun o ho =>
    injectImageData_byte_boot createNew720KImage.image bn ex content 0 o ho
  have hv14 : (injectImageData createNew720KImage.image bn ex content 0).readLE16 14 = 1 := by
    show (injectImageData createNew720KImage.image bn ex content 0).byte 14 + 256 * (injectImageData createNew720KImage.image bn ex content 0).byte (14 + 1) = 1
    rw [hboot 14 (by norm_num), hboot (14 + 1) (by norm_num)]
    decide
  have hv16 : (injectImageData createNew720KImage.image bn ex content 0).byte 16 = 2 := by
    rw [hboot 16 (by norm_num)]
    decide
  have hv22 : (injectImageData createNew720KImage.image bn ex content 0).readLE16 22 = 5 := by
    show (injectImageData createNew720KImage.image bn ex content 0).byte 22 + 256 * (injectImageData createNew720KImage.image bn ex content 0).byte (22 + 1) = 5
    rw [hboot 22 (by norm_num), hboot (22 + 1) (by norm_num)]
    decide
  have hdisc : rootDiscovery { createNew720KImage with image := injectImageData createNew720KImage.image bn ex content 0 } = (5632, GeometryMode.BPB) := by
    rw [rootDiscovery_bpb { createNew720KImage with image := injectImageData createNew720KImage.image bn ex content 0 }
      (by show 0 < (injectImageData createNew720KImage.image bn ex content 0).readLE16 14
          omega)
      (by show (injectImageData createNew720KImage.image bn ex content 0).readLE16 14 < 10
          omega)
      (by show 0 < (injectImageData createNew720KImage.image bn ex content 0).byte 16
          omega)
      (by show (injectImageData createNew720KImage.image bn ex content 0).byte 16 ≤ 2
          omega)
      (by show 0 < (injectImageData createNew720KImage.image bn ex content 0).readLE16 22
          omega)
      (by show (injectImageData createNew720KImage.image bn ex content 0).readLE16 22 ≤ 500
          omega)]
    show (((injectImageData createNew720KImage.image bn ex content 0).readLE16 14 + (injectImageData createNew720KImage.image bn ex content 0).byte 16 * (injectImageData createNew720KImage.image bn ex content 0).readLE16 22) * 512, GeometryMode.BPB) =
      (5632, GeometryMode.BPB)
    rw [hv14, hv16, hv22]
  have hname0 : ∀ j, j < 8 → (injectImageData createNew720KImage.image bn ex content 0).byte (5632 + j) = bn.getD j 0 % 256 := fun j hj =>
    injectImageData_byte_name createNew720KImage.image bn ex content 0 j hbn (by omega) hj
  have hbval : ∀ j, j < 8 → 32 ≤ bn.getD j 0 ∧ bn.getD j 0 ≤ 126 := by
    intro j hj
    rw [list_getD_lt bn j (by omega)]
    exact hnb _ (List.getElem_mem _)
  have hs0 : rootEntriesAux { createNew720KImage with image := injectImageData createNew720KImage.image bn ex content 0 } 5632 112 0 =
      parseDirEntry (injectImageData createNew720KImage.image bn ex content 0) 5632 :: rootEntriesAux { createNew720KImage with image := injectImageData createNew720KImage.image bn ex content 0 } 5632 111 1 := by
    have h := rootEntriesAux_push { createNew720KImage with image := injectImageData createNew720KImage.image bn ex content 0 } 5632 111 0
      (by show ¬ (injectImageData createNew720KImage.image bn ex content 0).size < 5632 + 0 * 32 + 32
          omega)
      (by show ¬ (injectImageData createNew720KImage.image bn ex content 0).byte 5632 = 0
          have hn : (injectImageData createNew720KImage.image bn ex content 0).byte 5632 = bn.getD 0 0 % 256 := hname0 0 (by norm_num)
          have hv := hbval 0 (by norm_num)
          omega)
      (by show ¬ (injectImageData createNew720KImage.image bn ex content 0).byte 5632 = 0xE5
          have hn : (injectImageData createNew720KImage.image bn ex content 0).byte 5632 = bn.getD 0 0 % 256 := hname0 0 (by norm_num)
          have hv := hbval 0 (by norm_num)
          omega)
      (by show ((List.range 8).any fun j =>
            decide ((injectImageData createNew720KImage.image bn ex content 0).byte (5632 + j) ≠ 32 ∧
              ((injectImageData createNew720KImage.image bn ex content 0).byte (5632 + j) < 32 ∨ 126 < (injectImageData createNew720KImage.image bn ex content 0).byte (5632 + j)))) = false
          rw [List.any_eq_false]
          intro j hj
          rw [List.mem_range] at hj
          have hn := hname0 j hj
          have hv := hbval j hj
          simp only [decide_eq_true_eq]
          omega)
      (by show ¬ (parseDirEntry (injectImageData createNew720KImage.image bn ex content 0) 5632).attr / 8 % 2 = 1
          rw [inject_parse_slot0 bn ex content hbn hexl hlen hnb hxb]
          show ¬ (0x20 : Nat) / 8 % 2 = 1
          decide)
    exact h
  have hs1 : rootEntriesAux { createNew720KImage with image := injectImageData createNew720KImage.image bn ex content 0 } 5632 111 1 = [] := by
    have h := rootEntriesAux_stop_zero { createNew720KImage with image := injectImageData createNew720KImage.image bn ex content 0 } 5632 110 1
      (by show ¬ (injectImageData createNew720KImage.image bn ex content 0).size < 5632 + 1 * 32 + 32
          omega)
      (by show (injectImageData createNew720KImage.image bn ex content 0).byte 5664 = 0
          have h1 : (injectImageData createNew720KImage.image bn ex content 0).byte 5664 = createNew720KImage.image.byte 5664 :=
            injectImageData_byte_between createNew720KImage.image bn ex content 0 5664
              hlen hbn hexl (by norm_num) (by norm_num)
          have h2 : blank720Image.byte 5664 = 0 := blank720_byte_hi 5664 (by norm_num)
          exact h1.trans h2)
    exact h
  unfold readRootDirectory
  rw [if_neg (by show ¬ (injectImageData createNew720KImage.image bn ex content 0).size = 0
                 omega)]
  rw [hdisc]
  show rootEntriesAux { createNew720KImage with image := injectImageData createNew720KImage.image bn ex content 0 } 5632 112 0 = [injectedEntry bn ex content.length]
  rw [hs0, hs1, inject_parse_slot0 bn ex content hbn hexl hlen hnb hxb]

end Atari

namespace Atari

/-- After a successful injection on the blank 720K image, `readFile`
on the created entry returns the injected bytes. -/
theorem inject_read_file (bn ex content : List Nat)
    (hbn : bn.length = 8) (hexl : ex.length = 3)
    (hlen : content.length ≤ 716800) (hlenpos : 0 < content.length)
    (hcb : ∀ b ∈ content, b < 256) :
    readFile { createNew720KImage with image := injectImageData createNew720KImage.image bn ex content 0 } (injectedEntry bn ex content.length) = content := by
  have hsizeID : (injectImageData createNew720KImage.image bn ex content 0).size = 737280 := by
    rw [injectImageData_size]
    exact blank720_size
  have hboot : ∀ o, o < 512 → (injectImageData createNew720KImage.image bn ex content 0).byte o = blank720Image.byte o := fun o ho =>
    injectImageData_byte_boot createNew720KImage.image bn ex content 0 o ho
  have hv14 : (injectImageData createNew720KImage.image bn ex content 0).readLE16 14 = 1 := by
    show (injectImageData createNew720KImage.image bn ex content 0).byte 14 + 256 * (injectImageData createNew720KImage.image bn ex content 0).byte (14 + 1) = 1
    rw [hboot 14 (by norm_num), hboot (14 + 1) (by norm_num)]
    decide
  have hv16 : (injectImageData createNew720KImage.image bn ex content 0).byte 16 = 2 := by
    rw [hboot 16 (by norm_num)]
    decide
  have hv22 : (injectImageData createNew720KImage.image bn ex content 0).readLE16 22 = 5 := by
    show (injectImageData createNew720KImage.image bn ex content 0).byte 22 + 256 * (injectImageData createNew720KImage.image bn ex content 0).byte (22 + 1) = 5
    rw [hboot 22 (by norm_num), hboot (22 + 1) (by norm_num)]
    decide
  have hv17 : (injectImageData createNew720KImage.image bn ex content 0).readLE16 17 = 112 := by
    show (injectImageData createNew720KImage.image bn ex content 0).byte 17 + 256 * (injectImageData createNew720KImage.image bn ex content 0).byte (17 + 1) = 112
    rw [hboot 17 (by norm_num), hboot (17 + 1) (by norm_num)]
    decide
  have hfs : (injectedEntry bn ex content.length).getFileSize = content.length := by
    show content.length % 256 + 256 * (content.length / 256 % 256) +
      65536 * (content.length / 65536 % 256) +
      16777216 * (content.length / 16777216 % 256) = content.length
    omega
  have hsc : (injectedEntry bn ex content.length).getStartCluster = 2 := rfl
  have hco : ∀ cIdx, clusterOffset { createNew720KImage with image := injectImageData createNew720KImage.image bn ex content 0 } (2 + cIdx) = 9216 + 1024 * cIdx := by
    intro cIdx
    rw [clusterOffset_bpb { createNew720KImage with image := injectImageData createNew720KImage.image bn ex content 0 } (2 + cIdx) rfl
      (by show ¬ (injectImageData createNew720KImage.image bn ex content 0).size = 0
          omega)
      (by omega)
      (by show ¬ ((injectImageData createNew720KImage.image bn ex content 0).readLE16 14 = 0 ∨ 500 < (injectImageData createNew720KImage.image bn ex content 0).readLE16 14)
          omega)]
    show 0 + ((injectImageData createNew720KImage.image bn ex content 0).readLE16 14 + (injectImageData createNew720KImage.image bn ex content 0).byte 16 * (injectImageData createNew720KImage.image bn ex content 0).readLE16 22 +
      ((injectImageData createNew720KImage.image bn ex content 0).readLE16 17 * 32 + 511) / 512 + (2 + cIdx - 2) * 2) * 512 = 9216 + 1024 * cIdx
    rw [hv14, hv16, hv22, hv17]
    omega
  have hfatID : ∀ j, j < ((content.length + 1023) / 1024) → readFat12 (injectImageData createNew720KImage.image bn ex content 0) 512 (2 + j) =
      if j = ((content.length + 1023) / 1024) - 1 then 0xFFF else 2 + j + 1 := by
    intro j hj
    rw [injectImageData_fat createNew720KImage.image bn ex content 0 (2 + j) (by omega)]
    exact injectChainWrite_readback ((content.length + 1023) / 1024) createNew720KImage.image 2 blank720_bounded
      (by omega) j hj
  have hchain : getClusterChain { createNew720KImage with image := injectImageData createNew720KImage.image bn ex content 0 } 2 = (List.range ((content.length + 1023) / 1024)).map (fun j => 2 + j) := by
    unfold getClusterChain
    rw [if_neg (by show ¬ ((injectImageData createNew720KImage.image bn ex content 0).size = 0 ∨ 2 < 2 ∨ 0xFF0 ≤ 2)
                   omega)]
    rw [chainLoop_contiguous { createNew720KImage with image := injectImageData createNew720KImage.image bn ex content 0 } ((content.length + 1023) / 1024) 2 [] 1442 (by omega) (by omega) (by norm_num)
      (by omega) hfatID
      (by intro j hj
          show 512 + (2 + j) * 3 / 2 + 1 < (injectImageData createNew720KImage.image bn ex content 0).size
          omega)
      (by simp only [List.length_nil]
          omega)]
    simp
  simp only [readFile]
  rw [hfs, hsc]
  rw [if_neg (by show ¬ (content.length = 0 ∨ (injectImageData createNew720KImage.image bn ex content 0).size = 0)
                 omega)]
  rw [if_neg (by omega : ¬ 4 * 1024 * 1024 < content.length)]
  rw [hchain]
  rw [if_neg (show ¬ ({ createNew720KImage with image := injectImageData createNew720KImage.image bn ex content 0 } : Engine).geoMode = GeometryMode.HatariGuess from
    fun h => GeometryMode.noConfusion (show GeometryMode.BPB = GeometryMode.HatariGuess from h))]
  rw [show (List.range ((content.length + 1023) / 1024)).map (fun j => 2 + j) =
    (List.range ((content.length + 1023) / 1024)).map (fun j => 2 + 0 + j) from List.map_congr_left (fun x _ => by omega)]
  rw [show ([] : List Nat) =
    (List.range (1024 * 0)).map (fun p => ({ createNew720KImage with image := injectImageData createNew720KImage.image bn ex content 0 } : Engine).image.byte (9216 + p)) from by simp]
  rw [readClusters_full { createNew720KImage with image := injectImageData createNew720KImage.image bn ex content 0 } content.length ((content.length + 1023) / 1024) rfl hlenpos
    (by show 9216 + content.length ≤ (injectImageData createNew720KImage.image bn ex content 0).size
        omega)
    hco ((content.length + 1023) / 1024) 0 (by omega) (by omega)]
  apply List.ext_getElem
  · simp
  · intro p h1 h2
    simp only [List.getElem_map, List.getElem_range]
    have h2x : p < content.length := h2
    show (injectImageData createNew720KImage.image bn ex content 0).byte (9216 + p) = content[p]
    have hd : (injectImageData createNew720KImage.image bn ex content 0).byte (9216 + p) = content.getD p 0 % 256 :=
      injectImageData_byte_data createNew720KImage.image bn ex content 0 p
        (by have h : createNew720KImage.image.size = 737280 := blank720_size
            omega) h2x
    rw [hd, list_getD_lt content p h2x]
    exact Nat.mod_eq_of_lt (hcb _ (List.getElem_mem _))

end Atari

namespace Atari

/-- C1 (amended): on a freshly created blank 720K image, injecting a
printable-named file of at most 716800 bytes (the hardcoded 700 KiB cap
of `injectFile`, which is below the 728064 bytes of free capacity the
original claim refers to) succeeds, the root directory then lists
exactly the new entry, and `readFile` on that entry returns the
injected bytes unchanged. -/
theorem C1_inject_read_roundtrip :
    ∀ (bn ex content : List Nat),
      bn.length = 8 → ex.length = 3 →
      content.length ≤ 716800 →
      (∀ b ∈ content, b < 256) →
      (∀ b ∈ bn, 32 ≤ b ∧ b ≤ 126) →
      (∀ b ∈ ex, b < 256) →
      (injectFile createNew720KImage bn ex content).1 = true ∧
      readRootDirectory (injectFile createNew720KImage bn ex content).2 =
        [injectedEntry bn ex content.length] ∧
      readFile (injectFile createNew720KImage bn ex content).2
        (injectedEntry bn ex content.length) = content := by
  intro bn ex content hbn hexl hlen hcb hnb hxb
  have hfind : (List.range 112).find?
      (fun i => createNew720KImage.image.byte (5632 + i * 32) == 0) = some 0 := by decide
  have hinj : injectFile createNew720KImage bn ex content = (true, { createNew720KImage with image := injectImageData createNew720KImage.image bn ex content 0 }) := by
    unfold injectFile
    rw [if_neg (by omega), hfind]
  have hsnd : (injectFile createNew720KImage bn ex content).2 = { createNew720KImage with image := injectImageData createNew720KImage.image bn ex content 0 } := by
    rw [hinj]
  refine ⟨by rw [hinj], ?_, ?_⟩
  · rw [hsnd]
    exact inject_read_root bn ex content hbn hexl hlen hnb hxb
  · rw [hsnd]
    rcases Nat.eq_zero_or_pos content.length with h0 | hpos
    · have hc : content = [] := List.length_eq_zero.mp h0
      subst hc
      rfl
    · exact inject_read_file bn ex content hbn hexl hlen hpos hcb

/-- C1 witness: injecting the one-byte file `HI      .TXT` with content
`[65]` on the blank 720K image succeeds, lists exactly that entry, and
reads back `[65]`. -/
theorem C1_inject_read_roundtrip_witness :
    (injectFile createNew720KImage [72, 73, 32, 32, 32, 32, 32, 32] [84, 88, 84] [65]).1 = true ∧
    readRootDirectory
        (injectFile createNew720KImage [72, 73, 32, 32, 32, 32, 32, 32] [84, 88, 84] [65]).2 =
      [injectedEntry [72, 73, 32, 32, 32, 32, 32, 32] [84, 88, 84] 1] ∧
    readFile (injectFile createNew720KImage [72, 73, 32, 32, 32, 32, 32, 32] [84, 88, 84] [65]).2
        (injectedEntry [72, 73, 32, 32, 32, 32, 32, 32] [84, 88, 84] 1) = [65] :=
  C1_inject_read_roundtrip [72, 73, 32, 32, 32, 32, 32, 32] [84, 88, 84] [65]
    (by decide) (by decide) (by decide) (by decide) (by decide) (by decide)

/-- C1 counterexample to the original claim: the blank 720K image has
728064 free bytes, yet injecting a 716801-byte file - well within free
capacity - fails, because `injectFile` rejects anything above its
hardcoded 700 KiB cap. -/
theorem C1_inject_read_roundtrip_cex :
    716801 ≤ freeBytes createNew720KImage ∧
    (injectFile createNew720KImage (List.replicate 8 65) (List.replicate 3 66)
      (List.replicate 716801 0)).1 = false := by
  constructor
  · have h : freeBytes createNew720KImage = 728064 := by decide
    omega
  · unfold injectFile
    rw [if_pos (by rw [List.length_replicate]
                   norm_num)]

end Atari

namespace Atari

theorem filter_length_le_of_imp (p q : Nat → Bool) :
    ∀ (l : List Nat), (∀ x ∈ l, q x = true → p x = true) →
      (l.filter q).length ≤ (l.filter p).length := by
  intro l
  induction l with
  | nil => intro _; simp
  | cons a t ih =>
    intro himp
    have ih2 := ih (fun x hx => himp x (List.mem_cons_of_mem a hx))
    rw [List.filter_cons, List.filter_cons]
    by_cases hq : q a = true
    · rw [if_pos hq, if_pos (himp a (List.mem_cons_self a t) hq)]
      simp only [List.length_cons]
      omega
    · rw [if_neg hq]
      by_cases hp : p a = true
      · rw [if_pos hp]
        simp only [List.length_cons]
        omega
      · rw [if_neg hp]
        exact ih2

theorem filter_length_lt_of_imp (p q : Nat → Bool) :
    ∀ (l : List Nat), (∀ x ∈ l, q x = true → p x = true) →
      ∀ x0, x0 ∈ l → p x0 = true → q x0 = false →
      (l.filter q).length < (l.filter p).length := by
  intro l
  induction l with
  | nil => intro _ x0 hx0; cases hx0
  | cons a t ih =>
    intro himp x0 hx0 hp0 hq0
    have himpt := fun x hx => himp x (List.mem_cons_of_mem a hx)
    rw [List.filter_cons, List.filter_cons]
    rcases List.mem_cons.mp hx0 with hxa | hxt
    · subst hxa
      rw [if_neg (by rw [hq0]; exact Bool.false_ne_true), if_pos hp0]
      have hle := filter_length_le_of_imp p q t himpt
      simp only [List.length_cons]
      omega
    · have hlt := ih himpt x0 hxt hp0 hq0
      by_cases hq : q a = true
      · rw [if_pos hq, if_pos (himp a (List.mem_cons_self a t) hq)]
        simp only [List.length_cons]
        omega
      · rw [if_neg hq]
        by_cases hp : p a = true
        · rw [if_pos hp]
          simp only [List.length_cons]
          omega
        · rw [if_neg hp]
          exact hlt

theorem find?_range_aux (p : Nat → Bool) (i0 : Nat) (hp : p i0 = true)
    (hq : ∀ i, i < i0 → p i = false) :
    ∀ (m s : Nat), s ≤ i0 → i0 < s + m → (List.range' s m).find? p = some i0 := by
  intro m
  induction m with
  | zero => intro s h1 h2; omega
  | succ k ih =>
    intro s h1 h2
    rw [show List.range' s (k + 1) = s :: List.range' (s + 1) k from rfl]
    by_cases hsa : s = i0
    · subst hsa
      rw [List.find?_cons_of_pos _ hp]
    · have hlt : s < i0 := by omega
      rw [List.find?_cons_of_neg _ (by rw [hq s hlt]; exact Bool.false_ne_true)]
      exact ih (s + 1) (by omega) (by omega)

theorem find?_range_unique (p : Nat → Bool) (n i0 : Nat) (hi0 : i0 < n) (hp : p i0 = true)
    (hq : ∀ i, i < i0 → p i = false) : (List.range n).find? p = some i0 := by
  rw [List.range_eq_range']
  exact find?_range_aux p i0 hp hq n 0 (by omega) (by omega)

/-- FAT sanity over the standard 720K cluster range: every live cluster
entry links to 0, to an end-of-chain mark, or to another cluster of the
range, so the chain and wipe loops never read or write beyond the first
FAT region. -/
def FatSane (img : Image) : Prop :=
  ∀ c, c < 720 → 2 ≤ c → readFat12 img 512 c = 0 ∨ 0xFF8 ≤ readFat12 img 512 c ∨
    (2 ≤ readFat12 img 512 c ∧ readFat12 img 512 c < 720)

theorem wipeFat12_sane (img : Image) (c : Nat) (hb : img.Bounded) (hs : FatSane img) :
    FatSane (wipeFat12 img c) := by
  intro c0 h720 h2
  by_cases he : c0 = c
  · subst he
    exact Or.inl (wipeFat12_read_self img c0)
  · rw [wipeFat12_read_ne img c c0 he hb]
    exact hs c0 h720 h2

theorem wipeLoop_size : ∀ (fuel : Nat) (img : Image) (cur : Nat),
    (wipeLoop img fuel cur).size = img.size := by
  intro fuel
  induction fuel with
  | zero => intro img cur; rfl
  | succ f ih =>
    intro img cur
    simp only [wipeLoop]
    split_ifs with h1 h2
    · exact wipeFat12_size img cur
    · rw [ih (wipeFat12 img cur) (readFat12 img 512 cur), wipeFat12_size]
    · rfl

theorem wipeLoop_byte_lo : ∀ (fuel : Nat) (img : Image) (cur o : Nat), o < 512 →
    (wipeLoop img fuel cur).byte o = img.byte o := by
  intro fuel
  induction fuel with
  | zero => intro img cur o _; rfl
  | succ f ih =>
    intro img cur o ho
    simp only [wipeLoop]
    split_ifs with h1 h2
    · exact wipeFat12_byte_lo img cur o (by omega)
    · rw [ih (wipeFat12 img cur) (readFat12 img 512 cur) o ho, wipeFat12_byte_lo img cur o (by omega)]
    · rfl

theorem wipeLoop_read_cases : ∀ (fuel : Nat) (img : Image) (cur c0 : Nat), img.Bounded →
    readFat12 (wipeLoop img fuel cur) 512 c0 = 0 ∨
      readFat12 (wipeLoop img fuel cur) 512 c0 = readFat12 img 512 c0 := by
  intro fuel
  induction fuel with
  | zero => intro img cur c0 _; right; rfl
  | succ f ih =>
    intro img cur c0 hb
    simp only [wipeLoop]
    split_ifs with h1 h2
    · by_cases he : c0 = cur
      · subst he
        exact Or.inl (wipeFat12_read_self img c0)
      · exact Or.inr (wipeFat12_read_ne img cur c0 he hb)
    · rcases ih (wipeFat12 img cur) (readFat12 img 512 cur) c0 (wipeFat12_bounded img cur hb)
        with h | h
      · exact Or.inl h
      · by_cases he : c0 = cur
        · subst he
          left
          rw [h]
          exact wipeFat12_read_self img c0
        · right
          rw [h]
          exact wipeFat12_read_ne img cur c0 he hb
    · right; rfl

theorem fatNonzero_wipe_lt (img : Image) (c : Nat) (hb : img.Bounded) (hc : c < 4080)
    (hnz : readFat12 img 512 c ≠ 0) :
    fatNonzeroCount (wipeFat12 img c) < fatNonzeroCount img := by
  unfold fatNonzeroCount
  apply filter_length_lt_of_imp (fun x => decide (readFat12 img 512 x ≠ 0))
    (fun x => decide (readFat12 (wipeFat12 img c) 512 x ≠ 0)) (List.range 4080)
    ?_ c (List.mem_range.mpr hc) (by simp only [decide_eq_true_eq]; exact hnz)
    (by simp [wipeFat12_read_self])
  intro x _ hqx
  simp only [decide_eq_true_eq] at hqx ⊢
  by_cases he : x = c
  · subst he
    rw [wipeFat12_read_self img x] at hqx
    exact absurd rfl hqx
  · rw [wipeFat12_read_ne img c x he hb] at hqx
    exact hqx

theorem wipeLoop_byte_hi_sane : ∀ (fuel : Nat) (img : Image) (cur o : Nat), img.Bounded →
    FatSane img → 2 ≤ cur → cur < 720 → 1592 ≤ o →
    (wipeLoop img fuel cur).byte o = img.byte o := by
  intro fuel
  induction fuel with
  | zero => intro img cur o _ _ _ _ _; rfl
  | succ f ih =>
    intro img cur o hb hs h2 h720 ho
    simp only [wipeLoop]
    rw [if_pos (⟨h2, by omega⟩ : 2 ≤ cur ∧ cur < 0xFF0)]
    by_cases heoc : 0xFF8 ≤ readFat12 img 512 cur ∨ readFat12 img 512 cur = 0
    · rw [if_pos heoc]
      exact wipeFat12_byte_hi img cur o (by omega)
    · rw [if_neg heoc]
      have hnr : 2 ≤ readFat12 img 512 cur ∧ readFat12 img 512 cur < 720 := by
        rcases hs cur h720 h2 with h | h | h
        · exact absurd (Or.inr h) heoc
        · exact absurd (Or.inl h) heoc
        · exact h
      rw [ih (wipeFat12 img cur) (readFat12 img 512 cur) o (wipeFat12_bounded img cur hb)
        (wipeFat12_sane img cur hb hs) hnr.1 hnr.2 ho]
      exact wipeFat12_byte_hi img cur o (by omega)

theorem reaches_trans (img : Image) (a b c : Nat) (h1 : Reaches img a b)
    (h2 : Reaches img b c) : Reaches img a c := by
  induction h2 with
  | refl => exact h1
  | step y z hxy hy2 hyF hlink hlive ih => exact .step a y z ih hy2 hyF hlink hlive

theorem reaches_range (img : Image) (hs : FatSane img) :
    ∀ s c, Reaches img s c → 2 ≤ s → s < 720 → 2 ≤ c ∧ c < 720 := by
  intro s c h
  induction h with
  | refl => intro h2 h720; exact ⟨h2, h720⟩
  | step b c hab hb2 hbF hlink hlive ih =>
    intro h2 h720
    have hb := ih h2 h720
    have hl := hs b hb.2 hb.1
    rw [hlink] at hl
    rcases hl with h | h | h
    · exact absurd (Or.inr h) hlive
    · exact absurd (Or.inl h) hlive
    · exact h

theorem reaches_stuck (img : Image) :
    ∀ s c, Reaches img s c →
      (0xFF8 ≤ readFat12 img 512 s ∨ readFat12 img 512 s = 0) → c = s := by
  intro s c h
  induction h with
  | refl => intro _; rfl
  | step b c hab hb2 hbF hlink hlive ih =>
    intro heoc
    have hba : b = s := ih heoc
    subst hba
    rw [hlink] at heoc
    exact absurd heoc hlive

theorem reaches_shift (img : Image) (hb : img.Bounded) :
    ∀ s c, Reaches img s c → ∀ next, readFat12 img 512 s = next →
      c = s ∨ Reaches (wipeFat12 img s) next c := by
  intro s c h
  induction h with
  | refl => intro next _; exact Or.inl rfl
  | step b c hab hb2 hbF hlink hlive ih =>
    intro next hnext
    by_cases hba : b = s
    · subst hba
      have hcnext : c = next := hlink.symm.trans hnext
      subst hcnext
      exact Or.inr (.refl c)
    · rcases ih next hnext with h1 | hr
      · exact absurd h1 hba
      · right
        exact .step next b c hr hb2 hbF
          (by rw [wipeFat12_read_ne img s b hba hb]; exact hlink) hlive

theorem reaches_transfer (img : Image) (v i0 : Nat) (hs : FatSane img) :
    ∀ s c, Reaches img s c → 2 ≤ s → s < 720 →
      Reaches (img.writeByte (5632 + i0 * 32) v) s c := by
  intro s c h
  induction h with
  | refl => intro _ _; exact .refl s
  | step b c hab hb2 hbF hlink hlive ih =>
    intro h2 h720
    have hbr := reaches_range img hs s b hab h2 h720
    refine .step s b c (ih h2 h720) hb2 hbF ?_ hlive
    have hcong : readFat12 (img.writeByte (5632 + i0 * 32) v) 512 b = readFat12 img 512 b :=
      readFat12_congr _ img 512 b
        (Image.writeByte_byte_ne img _ v _ (by omega))
        (Image.writeByte_byte_ne img _ v _ (by omega))
    exact hcong.trans hlink

theorem wipeLoop_kills : ∀ (fuel : Nat) (img : Image) (s : Nat),
    fatNonzeroCount img < fuel → img.Bounded → FatSane img → 2 ≤ s → s < 720 →
    ∀ c, Reaches img s c → readFat12 (wipeLoop img fuel s) 512 c = 0 := by
  intro fuel
  induction fuel with
  | zero => intro img s hcount; omega
  | succ f ih =>
    intro img s hcount hb hs h2 h720 c hr
    simp only [wipeLoop]
    rw [if_pos (⟨h2, by omega⟩ : 2 ≤ s ∧ s < 0xFF0)]
    by_cases heoc : 0xFF8 ≤ readFat12 img 512 s ∨ readFat12 img 512 s = 0
    · rw [if_pos heoc]
      rw [reaches_stuck img s c hr heoc]
      exact wipeFat12_read_self img s
    · rw [if_neg heoc]
      have hnr : 2 ≤ readFat12 img 512 s ∧ readFat12 img 512 s < 720 := by
        rcases hs s h720 h2 with h | h | h
        · exact absurd (Or.inr h) heoc
        · exact absurd (Or.inl h) heoc
        · exact h
      have hnz : readFat12 img 512 s ≠ 0 := fun h => heoc (Or.inr h)
      have hdec : fatNonzeroCount (wipeFat12 img s) < fatNonzeroCount img :=
        fatNonzero_wipe_lt img s hb (by omega) hnz
      rcases reaches_shift img hb s c hr (readFat12 img 512 s) rfl with hcs | hr2
      · rw [hcs]
        rcases wipeLoop_read_cases f (wipeFat12 img s) (readFat12 img 512 s) s
            (wipeFat12_bounded img s hb) with h | h
        · exact h
        · rw [h]
          exact wipeFat12_read_self img s
      · exact ih (wipeFat12 img s) (readFat12 img 512 s) (by omega)
          (wipeFat12_bounded img s hb) (wipeFat12_sane img s hb hs) hnr.1 hnr.2 c hr2

end Atari

namespace Atari

/-- Every cluster returned by the chain walk is FAT-reachable from the
start cluster (or was already in the accumulator). -/
theorem chainLoop_mem_reaches (e : Engine) (h0 : e.internalOffset = 0) :
    ∀ (fuel cur : Nat) (acc : List Nat) (c : Nat),
      c ∈ chainLoop e fuel cur acc → c ∈ acc ∨ Reaches e.image cur c := by
  intro fuel
  induction fuel with
  | zero =>
    intro cur acc c hc
    rw [show chainLoop e 0 cur acc = acc.reverse from rfl] at hc
    exact Or.inl (List.mem_reverse.mp hc)
  | succ f ih =>
    intro cur acc c hc
    simp only [chainLoop] at hc
    by_cases hg : 2 ≤ cur ∧ cur < 0xFF0
    · rw [if_pos hg] at hc
      by_cases hb1 : e.image.size ≤ 512 + cur * 3 / 2 + 1
      · rw [if_pos hb1] at hc
        rcases List.mem_cons.mp (List.mem_reverse.mp hc) with h | h
        · exact Or.inr (by rw [h]; exact .refl cur)
        · exact Or.inl h
      · rw [if_neg hb1] at hc
        by_cases heoc : 0xFF8 ≤ readFat12 e.image (e.internalOffset + 512) cur ∨
            readFat12 e.image (e.internalOffset + 512) cur = 0
        · rw [if_pos heoc] at hc
          rcases List.mem_cons.mp (List.mem_reverse.mp hc) with h | h
          · exact Or.inr (by rw [h]; exact .refl cur)
          · exact Or.inl h
        · rw [if_neg heoc] at hc
          by_cases hself : readFat12 e.image (e.internalOffset + 512) cur = cur ∨
              1440 < (cur :: acc).length
          · rw [if_pos hself] at hc
            rcases List.mem_cons.mp (List.mem_reverse.mp hc) with h | h
            · exact Or.inr (by rw [h]; exact .refl cur)
            · exact Or.inl h
          · rw [if_neg hself] at hc
            rcases ih (readFat12 e.image (e.internalOffset + 512) cur) (cur :: acc) c hc
              with h | h
            · rcases List.mem_cons.mp h with h2 | h2
              · exact Or.inr (by rw [h2]; exact .refl cur)
              · exact Or.inl h2
            · right
              have hstep : Reaches e.image cur (readFat12 e.image (e.internalOffset + 512) cur) := by
                refine .step cur cur _ (.refl cur) hg.1 hg.2 ?_ ?_
                · rw [h0]
                · exact heoc
              exact reaches_trans e.image cur _ c hstep h
    · rw [if_neg hg] at hc
      exact Or.inl (List.mem_reverse.mp hc)

/-- Every entry returned by the root extraction loop is the parse of
some visited slot whose first byte is not the deleted mark. -/
theorem rootEntriesAux_mem (e : Engine) (found : Nat) :
    ∀ (fuel i : Nat) (en : DirEntry), en ∈ rootEntriesAux e found fuel i →
      ∃ k, i ≤ k ∧ k < i + fuel ∧
        en = parseDirEntry e.image (e.internalOffset + found + k * 32) ∧
        ¬ e.image.byte (e.internalOffset + found + k * 32) = 0xE5 := by
  intro fuel
  induction fuel with
  | zero =>
    intro i en hen
    simp only [rootEntriesAux] at hen
    exact absurd hen (List.not_mem_nil en)
  | succ f ih =>
    intro i en hen
    simp only [rootEntriesAux] at hen
    split_ifs at hen with h1 h2 h3 h4 h5
    · exact absurd hen (List.not_mem_nil en)
    · exact absurd hen (List.not_mem_nil en)
    · obtain ⟨k, hk1, hk2, hk3, hk4⟩ := ih (i + 1) en hen
      exact ⟨k, by omega, by omega, hk3, hk4⟩
    · exact absurd hen (List.not_mem_nil en)
    · obtain ⟨k, hk1, hk2, hk3, hk4⟩ := ih (i + 1) en hen
      exact ⟨k, by omega, by omega, hk3, hk4⟩
    · rcases List.mem_cons.mp hen with h | h
      · exact ⟨i, le_refl i, by omega, h, h3⟩
      · obtain ⟨k, hk1, hk2, hk3, hk4⟩ := ih (i + 1) en h
        exact ⟨k, by omega, by omega, hk3, hk4⟩

theorem deleteImage_size (img : Image) (E : DirEntry) (i0 : Nat) :
    (deleteImage img E i0).size = img.size := by
  unfold deleteImage
  rw [copyRegion_size, wipeLoop_size, Image.writeByte_size]

theorem deleteImage_byte_boot (img : Image) (E : DirEntry) (i0 o : Nat) (ho : o < 512) :
    (deleteImage img E i0).byte o = img.byte o := by
  unfold deleteImage
  rw [copyRegion_byte_lo _ _ _ _ o (by omega),
    wipeLoop_byte_lo 4100 _ _ o ho,
    Image.writeByte_byte_ne img _ 0xE5 o (by omega)]

theorem deleteImage_byte_root (img : Image) (E : DirEntry) (i0 o : Nat)
    (hb : img.Bounded) (hs : FatSane img)
    (h2 : 2 ≤ E.getStartCluster) (h720 : E.getStartCluster < 720)
    (ho : 5632 ≤ o) :
    (deleteImage img E i0).byte o =
      if o = 5632 + i0 * 32 then 0xE5 else img.byte o := by
  unfold deleteImage
  rw [copyRegion_byte_hi _ _ _ _ o (by omega)]
  rw [wipeLoop_byte_hi_sane 4100 (img.writeByte (5632 + i0 * 32) 0xE5) E.getStartCluster o
    (Image.writeByte_bounded img _ _ hb) ?_ h2 h720 (by omega)]
  · by_cases he : o = 5632 + i0 * 32
    · rw [if_pos he, he, Image.writeByte_byte_eq]
    · rw [if_neg he, Image.writeByte_byte_ne img _ _ o he]
  · intro c h720c h2c
    have hcong : readFat12 (img.writeByte (5632 + i0 * 32) 0xE5) 512 c = readFat12 img 512 c :=
      readFat12_congr _ img 512 c
        (Image.writeByte_byte_ne img _ _ _ (by omega))
        (Image.writeByte_byte_ne img _ _ _ (by omega))
    rw [hcong]
    exact hs c h720c h2c

theorem deleteImage_fat (img : Image) (E : DirEntry) (i0 c : Nat) (hc : c < 720) :
    readFat12 (deleteImage img E i0) 512 c =
      readFat12 (wipeLoop (img.writeByte (5632 + i0 * 32) 0xE5) 4100 E.getStartCluster)
        512 c := by
  unfold deleteImage
  exact readFat12_congr _ _ 512 c
    (copyRegion_byte_lo _ _ _ _ _ (by omega))
    (copyRegion_byte_lo _ _ _ _ _ (by omega))

end Atari

namespace Atari

/-- C2 (amended): consider an engine with zero internal offset, a
loaded byte-bounded image of at least 9216 bytes whose little-endian
BPB fields are plausible and place the root at the hardcoded sector 11
(reserved + fatCount * sectorsPerFat = 11), and a sane first FAT whose
live entries of the 720K cluster range link only to 0, end-of-chain, or
the same range. For every non-directory entry whose 11 name+extension
bytes match exactly one root slot and whose start cluster lies in the
range, `deleteFile` returns true, the entry is no longer listed by
`readRootDirectory`, and every cluster of its previous chain reads back
as 0x000 in the FAT. (The original claim is refuted by
`C2_delete_removes_entry_cex`: with duplicate matching slots only the
first is marked deleted and the entry stays listed.) -/
theorem C2_delete_removes_entry (e : Engine) (E : DirEntry) (i0 : Nat)
    (h0 : e.internalOffset = 0)
    (hb : e.image.Bounded)
    (hszl : 9216 ≤ e.image.size)
    (h14a : 0 < e.image.readLE16 14) (h14b : e.image.readLE16 14 < 10)
    (h16a : 0 < e.image.byte 16) (h16b : e.image.byte 16 ≤ 2)
    (h22a : 0 < e.image.readLE16 22) (h22b : e.image.readLE16 22 ≤ 500)
    (hsum : e.image.readLE16 14 + e.image.byte 16 * e.image.readLE16 22 = 11)
    (hs : FatSane e.image)
    (hE : E.isDirectory = false)
    (hi0 : i0 < 112)
    (hm1 : bytesAt e.image (5632 + i0 * 32) 8 = E.name)
    (hm2 : bytesAt e.image (5632 + i0 * 32 + 8) 3 = E.ext)
    (huniq : ∀ i, i < 112 → i ≠ i0 →
      ¬ (bytesAt e.image (5632 + i * 32) 8 = E.name ∧
        bytesAt e.image (5632 + i * 32 + 8) 3 = E.ext))
    (hsc2 : 2 ≤ E.getStartCluster) (hsc720 : E.getStartCluster < 720) :
    (deleteFile e E).1 = true ∧
    E ∉ readRootDirectory (deleteFile e E).2 ∧
    ∀ c ∈ getClusterChain e E.getStartCluster,
      readFat12 (deleteFile e E).2.image 512 c = 0 := by
  have hfind : (List.range 112).find? (fun i =>
      bytesAt e.image (5632 + i * 32) 8 == E.name &&
        bytesAt e.image (5632 + i * 32 + 8) 3 == E.ext) = some i0 := by
    apply find?_range_unique _ 112 i0 hi0
    · simp [hm1, hm2]
    · intro i hii0
      rw [Bool.eq_false_iff]
      intro hX
      rw [Bool.and_eq_true, beq_iff_eq, beq_iff_eq] at hX
      exact huniq i (by omega) (by omega) hX
  have hdel : deleteFile e E = (true, { e with image := deleteImage e.image E i0 }) := by
    unfold deleteFile
    rw [if_neg (by omega), if_neg (by simp [hE]), hfind]
  have hb14 : (deleteImage e.image E i0).readLE16 14 = e.image.readLE16 14 := by
    show (deleteImage e.image E i0).byte 14 + 256 * (deleteImage e.image E i0).byte (14 + 1) =
      e.image.byte 14 + 256 * e.image.byte (14 + 1)
    rw [deleteImage_byte_boot e.image E i0 14 (by norm_num),
      deleteImage_byte_boot e.image E i0 (14 + 1) (by norm_num)]
  have hb16 : (deleteImage e.image E i0).byte 16 = e.image.byte 16 :=
    deleteImage_byte_boot e.image E i0 16 (by norm_num)
  have hb22 : (deleteImage e.image E i0).readLE16 22 = e.image.readLE16 22 := by
    show (deleteImage e.image E i0).byte 22 + 256 * (deleteImage e.image E i0).byte (22 + 1) =
      e.image.byte 22 + 256 * e.image.byte (22 + 1)
    rw [deleteImage_byte_boot e.image E i0 22 (by norm_num),
      deleteImage_byte_boot e.image E i0 (22 + 1) (by norm_num)]
  have hno : ¬ ({ e with image := deleteImage e.image E i0 } : Engine).image.size = 0 := by
    show ¬ (deleteImage e.image E i0).size = 0
    rw [deleteImage_size]
    omega
  have hdisc : rootDiscovery ({ e with image := deleteImage e.image E i0 } : Engine) = (5632, GeometryMode.BPB) := by
    rw [rootDiscovery_bpb ({ e with image := deleteImage e.image E i0 } : Engine)
      (by show 0 < (deleteImage e.image E i0).readLE16 (e.internalOffset + 0x0E)
          rw [h0]
          show 0 < (deleteImage e.image E i0).readLE16 14
          rw [hb14]
          omega)
      (by show (deleteImage e.image E i0).readLE16 (e.internalOffset + 0x0E) < 10
          rw [h0]
          show (deleteImage e.image E i0).readLE16 14 < 10
          rw [hb14]
          omega)
      (by show 0 < (deleteImage e.image E i0).byte (e.internalOffset + 0x10)
          rw [h0]
          show 0 < (deleteImage e.image E i0).byte 16
          rw [hb16]
          omega)
      (by show (deleteImage e.image E i0).byte (e.internalOffset + 0x10) ≤ 2
          rw [h0]
          show (deleteImage e.image E i0).byte 16 ≤ 2
          rw [hb16]
          omega)
      (by show 0 < (deleteImage e.image E i0).readLE16 (e.internalOffset + 0x16)
          rw [h0]
          show 0 < (deleteImage e.image E i0).readLE16 22
          rw [hb22]
          omega)
      (by show (deleteImage e.image E i0).readLE16 (e.internalOffset + 0x16) ≤ 500
          rw [h0]
          show (deleteImage e.image E i0).readLE16 22 ≤ 500
          rw [hb22]
          omega)]
    show (((deleteImage e.image E i0).readLE16 (e.internalOffset + 0x0E) +
      (deleteImage e.image E i0).byte (e.internalOffset + 0x10) *
        (deleteImage e.image E i0).readLE16 (e.internalOffset + 0x16)) * 512,
      GeometryMode.BPB) = (5632, GeometryMode.BPB)
    rw [h0]
    show (((deleteImage e.image E i0).readLE16 14 +
      (deleteImage e.image E i0).byte 16 * (deleteImage e.image E i0).readLE16 22) * 512,
      GeometryMode.BPB) = (5632, GeometryMode.BPB)
    rw [hb14, hb16, hb22, hsum]
  refine ⟨by rw [hdel], ?_, ?_⟩
  · rw [hdel]
    intro hmem
    have hmem2 : E ∈ readRootDirectory ({ e with image := deleteImage e.image E i0 } : Engine) := hmem
    unfold readRootDirectory at hmem2
    rw [if_neg hno, hdisc] at hmem2
    have hmem3 : E ∈ rootEntriesAux ({ e with image := deleteImage e.image E i0 } : Engine) 5632 112 0 := hmem2
    obtain ⟨k, hk0, hk112, hkparse, hkE5⟩ := rootEntriesAux_mem ({ e with image := deleteImage e.image E i0 } : Engine) 5632 112 0 E hmem3
    have hEp : E = parseDirEntry (deleteImage e.image E i0)
        (e.internalOffset + 5632 + k * 32) := hkparse
    rw [h0] at hEp
    have hEp2 : E = parseDirEntry (deleteImage e.image E i0) (5632 + k * 32) := hEp
    have hk1 : ¬ (deleteImage e.image E i0).byte (e.internalOffset + 5632 + k * 32) = 0xE5 :=
      hkE5
    rw [h0] at hk1
    have hk2 : ¬ (deleteImage e.image E i0).byte (5632 + k * 32) = 0xE5 := hk1
    by_cases hki : k = i0
    · have hval := deleteImage_byte_root e.image E i0 (5632 + i0 * 32) hb hs hsc2 hsc720
        (by omega)
      rw [if_pos rfl] at hval
      rw [hki] at hk2
      exact hk2 hval
    · have hname : bytesAt (deleteImage e.image E i0) (5632 + k * 32) 8 =
          bytesAt e.image (5632 + k * 32) 8 := by
        unfold bytesAt
        apply List.map_congr_left
        intro j hj
        rw [List.mem_range] at hj
        have hv := deleteImage_byte_root e.image E i0 (5632 + k * 32 + j) hb hs hsc2 hsc720
          (by omega)
        rw [if_neg (by omega)] at hv
        exact hv
      have hext : bytesAt (deleteImage e.image E i0) (5632 + k * 32 + 8) 3 =
          bytesAt e.image (5632 + k * 32 + 8) 3 := by
        unfold bytesAt
        apply List.map_congr_left
        intro j hj
        rw [List.mem_range] at hj
        have hv := deleteImage_byte_root e.image E i0 (5632 + k * 32 + 8 + j) hb hs hsc2 hsc720
          (by omega)
        rw [if_neg (by omega)] at hv
        exact hv
      refine huniq k (by omega) hki ⟨?_, ?_⟩
      · have h1 : E.name = bytesAt (deleteImage e.image E i0) (5632 + k * 32) 8 :=
          congrArg DirEntry.name hEp2
        rw [h1]
        exact hname.symm
      · have h1 : E.ext = bytesAt (deleteImage e.image E i0) (5632 + k * 32 + 8) 3 :=
          congrArg DirEntry.ext hEp2
        rw [h1]
        exact hext.symm
  · rw [hdel]
    intro c hc
    show readFat12 (deleteImage e.image E i0) 512 c = 0
    have hcr : Reaches e.image E.getStartCluster c := by
      unfold getClusterChain at hc
      rw [if_neg (by omega)] at hc
      rcases chainLoop_mem_reaches e h0 1442 E.getStartCluster [] c hc with h | h
      · exact absurd h (List.not_mem_nil c)
      · exact h
    have hrange := reaches_range e.image hs E.getStartCluster c hcr hsc2 hsc720
    rw [deleteImage_fat e.image E i0 c hrange.2]
    have himg1b : (e.image.writeByte (5632 + i0 * 32) 0xE5).Bounded :=
      Image.writeByte_bounded e.image _ _ hb
    have himg1s : FatSane (e.image.writeByte (5632 + i0 * 32) 0xE5) := by
      intro c0 h720 h2
      have hcong : readFat12 (e.image.writeByte (5632 + i0 * 32) 0xE5) 512 c0 =
          readFat12 e.image 512 c0 :=
        readFat12_congr _ e.image 512 c0
          (Image.writeByte_byte_ne e.image _ _ _ (by omega))
          (Image.writeByte_byte_ne e.image _ _ _ (by omega))
      rw [hcong]
      exact hs c0 h720 h2
    have hcnt : fatNonzeroCount (e.image.writeByte (5632 + i0 * 32) 0xE5) < 4100 := by
      have hfl := List.length_filter_le
        (fun x => decide (readFat12 (e.image.writeByte (5632 + i0 * 32) 0xE5) 512 x ≠ 0))
        (List.range 4080)
      rw [List.length_range] at hfl
      unfold fatNonzeroCount
      omega
    exact wipeLoop_kills 4100 (e.image.writeByte (5632 + i0 * 32) 0xE5) E.getStartCluster
      hcnt himg1b himg1s hsc2 hsc720 c
      (reaches_transfer e.image 0xE5 i0 hs E.getStartCluster c hcr hsc2 hsc720)

end Atari

namespace Atari

set_option maxHeartbeats 4000000

theorem ite_lt_256 (c : Prop) [Decidable c] (a b : Nat) (ha : a < 256) (hb : b < 256) :
    (if c then a else b) < 256 := by
  split_ifs <;> assumption

theorem forall_range_of_all (n : Nat) (p : Nat → Bool)
    (h : ((List.range n).all p) = true) : ∀ i, i < n → p i = true := by
  intro i hi
  exact List.all_eq_true.mp h i (List.mem_range.mpr hi)

/-- Establish `FatSane` by evaluating the finitely many live entries. -/
theorem fatSane_of_all (img : Image)
    (h : ((List.range 720).all fun c => decide (2 ≤ c →
      (readFat12 img 512 c = 0 ∨ 0xFF8 ≤ readFat12 img 512 c ∨
        (2 ≤ readFat12 img 512 c ∧ readFat12 img 512 c < 720)))) = true) :
    FatSane img := by
  intro c h720 h2
  have hc := List.all_eq_true.mp h c (List.mem_range.mpr h720)
  rw [decide_eq_true_eq] at hc
  exact hc h2

/-- C2 witness: deleting the unique root entry `DELME.DAT` of `eDel`
(start cluster 2, chain 2 → 3 → end-of-chain) succeeds, the entry is
gone from the root listing, and both chain clusters read back 0x000. -/
theorem C2_delete_removes_entry_witness :
    (deleteFile eDel Edel).1 = true ∧
    Edel ∉ readRootDirectory (deleteFile eDel Edel).2 ∧
    ∀ c ∈ getClusterChain eDel Edel.getStartCluster,
      readFat12 (deleteFile eDel Edel).2.image 512 c = 0 :=
  C2_delete_removes_entry eDel Edel 0 rfl
    (by intro o
        have h : eDel.image.byte o = (if o = 0x0E then 1 else if o = 0x10 then 2 else
          if o = 0x16 then 5 else
          if o = 515 then 3 else if o = 516 then 0xF0 else if o = 517 then 0xFF else
          if o = 5632 then 68 else if o = 5633 then 69 else if o = 5634 then 76 else
          if o = 5635 then 77 else if o = 5636 then 69 else
          if 5637 ≤ o ∧ o < 5640 then 32 else
          if o = 5640 then 68 else if o = 5641 then 65 else if o = 5642 then 84 else
          if o = 5658 then 2 else 0) := rfl
        rw [h]
        repeat refine ite_lt_256 _ _ _ (by norm_num) ?_
        norm_num)
    (by decide) (by decide) (by decide) (by decide) (by decide) (by decide) (by decide)
    (by decide) (fatSane_of_all eDel.image (by decide))
    (by decide) (by decide) (by decide) (by decide)
    (by intro i hi hne
        have hall := forall_range_of_all 112 (fun i => decide (i ≠ 0 →
          ¬ (bytesAt eDel.image (5632 + i * 32) 8 = Edel.name ∧
            bytesAt eDel.image (5632 + i * 32 + 8) 3 = Edel.ext))) (by decide) i hi
        rw [decide_eq_true_eq] at hall
        exact hall hne)
    (by decide) (by decide)

/-- C2 counterexample to the original claim: in `eDup` the same entry
occupies root slots 0 and 1; `deleteFile` succeeds but marks only the
first matching slot, so the entry is still listed afterwards. -/
theorem C2_delete_removes_entry_cex :
    Edup.isDirectory = false ∧
    Edup ∈ readRootDirectory eDup ∧
    (deleteFile eDup Edup).1 = true ∧
    Edup ∈ readRootDirectory (deleteFile eDup Edup).2 := by
  refine ⟨rfl, by decide, by decide, by decide⟩

end Atari
